import Mathlib

/-
Verification development for the mir2pnml_py pipeline
(MIR text parser, Petri-net builder, PNML writer).

The Python sources are shallowly embedded:
  * strings are `List Char` (`Str`);
  * the regex-driven parser is embedded with a small backtracking regex
    engine; every quantifier in the source patterns applies to a single
    character class, so the engine is total by structural recursion and
    reproduces Python `re` leftmost / greedy / first-alternative semantics
    for the constructs used;
  * Python dicts that are only ever read back by key lookup are embedded
    as association lists where an assignment conses in front and a lookup
    takes the first hit (i.e. the most recent assignment wins, exactly as
    a Python dict assignment overwrites).
-/

set_option maxRecDepth 100000
set_option maxHeartbeats 4000000

abbrev Str := List Char

def lchars (s : String) : Str := s.data

/-- Python `str.strip()` / regex `\s` whitespace set (ASCII subset). -/
def pyIsSpace (c : Char) : Bool :=
  c == ' ' || c == '\t' || c == '\n' || c == '\r' || c == '\x0b' || c == '\x0c'

/-- Regex `\w` (ASCII subset used by the MIR dumps). -/
def isWordChar (c : Char) : Bool :=
  c.isAlpha || c.isDigit || c == '_'

/-- Python `s.strip()`. -/
def stripL (s : Str) : Str :=
  ((s.dropWhile pyIsSpace).reverse.dropWhile pyIsSpace).reverse

/-- Python `s.split("\n")`, keeping empty segments. -/
def splitNl : Str → List Str
  | [] => [[]]
  | c :: rest =>
    let r := splitNl rest
    if c == '\n' then [] :: r
    else match r with
      | [] => [[c]]
      | l :: ls => (c :: l) :: ls

/-- Prefix test on character lists. -/
def isPrefixL : Str → Str → Bool
  | [], _ => true
  | _ :: _, [] => false
  | a :: as, b :: bs => a == b && isPrefixL as bs

/-- Python `needle in hay` substring test. -/
def containsL (hay needle : Str) : Bool :=
  match hay with
  | [] => isPrefixL needle []
  | _ :: rest => isPrefixL needle hay || containsL rest needle

/-- Suffix test on character lists. -/
def endsWithL (suf s : Str) : Bool :=
  isPrefixL suf.reverse s.reverse

/-- Python `s.lower()` (ASCII). -/
def lowerL (s : Str) : Str := s.map Char.toLower

/-- Python `int(...)` on a digit string captured by `\d+`. -/
def digitsToNat (s : Str) : Nat :=
  s.foldl (fun acc c => 10 * acc + (c.toNat - '0'.toNat)) 0

/-- Fueled digit accumulator for `natToStr` (structural recursion so that
the kernel can evaluate it; `n < fuel` always holds at the call site). -/
def natToStrAux : Nat → Nat → Str → Str
  | 0, _, acc => acc
  | fuel + 1, n, acc =>
    if n < 10 then Char.ofNat (48 + n) :: acc
    else natToStrAux fuel (n / 10) (Char.ofNat (48 + n % 10) :: acc)

/-- Python `str(...)` on a non-negative int: base-10 digits. -/
def natToStr (n : Nat) : Str := natToStrAux (n + 1) n []

/-- Python dict assignment `d[k] = v`: the new binding shadows older ones. -/
def dset (d : List (Str × Str)) (k v : Str) : List (Str × Str) :=
  (k, v) :: d

/-- Python dict lookup `d[k]` / `k in d`: first (most recent) binding. -/
def dget? (d : List (Str × Str)) (k : Str) : Option Str :=
  (d.find? (fun kv => kv.1 == k)).map (·.2)

/-- Python `d.get(k, default)`. -/
def dgetD (d : List (Str × Str)) (k deflt : Str) : Str :=
  (dget? d k).getD deflt

/-! ### Backtracking regex engine

Every `*` / `+` in the source patterns quantifies a single character
class, so the engine only needs greedy class repetition plus sequencing,
alternation, option, capture groups, `^` (no MULTILINE) and `\b`. -/

inductive RE where
  | eps
  | ch (c : Char)
  | cls (p : Char → Bool)
  | seq (a b : RE)
  | alt (a b : RE)
  | opt (a : RE)
  | starC (p : Char → Bool)
  | plusC (p : Char → Bool)
  | group (n : Nat) (a : RE)
  | bos
  | wb

def reSeqs (l : List RE) : RE := l.foldr RE.seq RE.eps

def reLit (s : String) : RE := reSeqs (s.data.map RE.ch)

abbrev Caps := List (Nat × Str)

/-- Splits of a maximal class run, in increasing consumption order,
each with the last consumed character (for `\b`). -/
def classRun (p : Char → Bool) (prev : Option Char) : Str → List (Option Char × Str)
  | [] => [(prev, [])]
  | c :: rest =>
    (prev, c :: rest) :: (if p c then classRun p (some c) rest else [])

def isWordOpt : Option Char → Bool
  | none => false
  | some c => isWordChar c

/-- All ways to match `re` at the head of `s`, in Python backtracking
priority order (head = the match Python takes). Results carry the updated
captures, last consumed char and the remaining input. -/
def mmatch : RE → Caps → Option Char → Str → List (Caps × Option Char × Str)
  | .eps, caps, prev, s => [(caps, prev, s)]
  | .ch c, caps, _, s =>
    match s with
    | [] => []
    | x :: r => if x == c then [(caps, some x, r)] else []
  | .cls p, caps, _prev, s =>
    match s with
    | [] => []
    | x :: r => if p x then [(caps, some x, r)] else []
  | .seq a b, caps, prev, s =>
    (mmatch a caps prev s).flatMap (fun res => mmatch b res.1 res.2.1 res.2.2)
  | .alt a b, caps, prev, s => mmatch a caps prev s ++ mmatch b caps prev s
  | .opt a, caps, prev, s => mmatch a caps prev s ++ [(caps, prev, s)]
  | .starC p, caps, prev, s =>
    (classRun p prev s).reverse.map (fun pr => (caps, pr.1, pr.2))
  | .plusC p, caps, prev, s =>
    match s with
    | [] => []
    | c :: r =>
      if p c then (classRun p (some c) r).reverse.map (fun pr => (caps, pr.1, pr.2))
      else []
  | .group n a, caps, prev, s =>
    (mmatch a caps prev s).map
      (fun res => ((n, s.take (s.length - res.2.2.length)) :: res.1, res.2.1, res.2.2))
  | .bos, caps, prev, s => if prev.isNone then [(caps, prev, s)] else []
  | .wb, caps, prev, s =>
    if isWordOpt prev != isWordOpt s.head? then [(caps, prev, s)] else []

/-- Captured group `n`, `none` when the group did not participate. -/
def getGroup (caps : Caps) (n : Nat) : Option Str :=
  (caps.find? (fun kv => kv.1 == n)).map (·.2)

/-- Python `pattern.match(s)` (anchored at position 0). -/
def reMatchA (re : RE) (s : Str) : Option Caps :=
  (mmatch re [] none s).head?.map (·.1)

/-- Worker for `reSearch`: scans start positions left to right. -/
def reSearchAux (re : RE) (prev : Option Char) (beforeRev : Str) (s : Str) :
    Option (Str × Caps × Str × Str) :=
  match mmatch re [] prev s with
  | res :: _ =>
    some (beforeRev.reverse, res.1, s.take (s.length - res.2.2.length), res.2.2)
  | [] =>
    match s with
    | [] => none
    | c :: r => reSearchAux re (some c) (c :: beforeRev) r

/-- Python `pattern.search(s)`: returns (text before the match, captures,
matched text, text after the match). -/
def reSearch (re : RE) (s : Str) : Option (Str × Caps × Str × Str) :=
  reSearchAux re none [] s

/-- Captures of the first match, Python `pattern.search(s)` truthiness. -/
def reFind (re : RE) (s : Str) : Option Caps :=
  (reSearch re s).map (fun r => r.2.1)

/-! ### The regex patterns of `mir_parser.py` -/

def wsC : Char → Bool := pyIsSpace

def digC : Char → Bool := Char.isDigit

def notC (c : Char) : Char → Bool := fun x => x != c

/-- `fn\s+(\w+)\s*\([^)]*\)\s*->\s*[^{]*\{` -/
def fnPattern : RE :=
  reSeqs [reLit ("fn"), .plusC wsC, .group 1 (.plusC isWordChar), .starC wsC,
    .ch '(', .starC (notC ')'), .ch ')', .starC wsC, reLit ("->"), .starC wsC,
    .starC (notC '{'), .ch '{']

/-- `let\s+(mut\s+)?(_\d+)\s*:\s*([^;]+);` -/
def letPattern : RE :=
  reSeqs [reLit ("let"), .plusC wsC, .opt (.group 1 (.seq (reLit ("mut")) (.plusC wsC))),
    .group 2 (.seq (.ch '_') (.plusC digC)), .starC wsC, .ch ':', .starC wsC,
    .group 3 (.plusC (notC ';')), .ch ';']

/-- `(_\d+)\s*=\s*&(_\d+)\s*;` -/
def refPattern : RE :=
  reSeqs [.group 1 (.seq (.ch '_') (.plusC digC)), .starC wsC, .ch '=', .starC wsC,
    .ch '&', .group 2 (.seq (.ch '_') (.plusC digC)), .starC wsC, .ch ';']

/-- `bb(\d+)\s*(?:\(cleanup\))?\s*:\s*\{` -/
def bbPattern : RE :=
  reSeqs [reLit ("bb"), .group 1 (.plusC digC), .starC wsC,
    .opt (reLit ("(cleanup)")), .starC wsC, .ch ':', .starC wsC, .ch '{']

/-- `goto\s*->\s*bb(\d+)\s*;` -/
def gotoPattern : RE :=
  reSeqs [reLit ("goto"), .starC wsC, reLit ("->"), .starC wsC, reLit ("bb"),
    .group 1 (.plusC digC), .starC wsC, .ch ';']

/-- `return\s*;` -/
def returnPattern : RE :=
  reSeqs [reLit ("return"), .starC wsC, .ch ';']

/-- `(?:,\s*unwind:\s*(?:bb(\d+)|continue|terminate[^]]*))?` with group `g`. -/
def unwindOptPart (g : Nat) : RE :=
  .opt (reSeqs [.ch ',', .starC wsC, reLit ("unwind:"), .starC wsC,
    .alt (.seq (reLit ("bb")) (.group g (.plusC digC)))
      (.alt (reLit ("continue")) (.seq (reLit ("terminate")) (.starC (notC ']'))))])

/-- `drop\s*\(([^)]+)\)\s*->\s*\[return:\s*bb(\d+)(?:,\s*unwind:\s*(?:bb(\d+)|continue|terminate[^]]*))?\]\s*;` -/
def dropPattern : RE :=
  reSeqs [reLit ("drop"), .starC wsC, .ch '(', .group 1 (.plusC (notC ')')), .ch ')',
    .starC wsC, reLit ("->"), .starC wsC, .ch '[', reLit ("return:"), .starC wsC,
    reLit ("bb"), .group 2 (.plusC digC), unwindOptPart 3, .ch ']', .starC wsC, .ch ';']

/-- `switchInt\s*\([^)]+\)\s*->\s*\[([^\]]+)\]\s*;` -/
def switchPattern : RE :=
  reSeqs [reLit ("switchInt"), .starC wsC, .ch '(', .plusC (notC ')'), .ch ')',
    .starC wsC, reLit ("->"), .starC wsC, .ch '[', .group 1 (.plusC (notC ']')),
    .ch ']', .starC wsC, .ch ';']

/-- `(?:(\w+)\s*=\s*)?([^(]+)\(([^)]*)\)\s*->\s*\[return:\s*bb(\d+)(?:,\s*unwind:\s*(?:bb(\d+)|continue|terminate[^]]*))?\]\s*;` -/
def callPattern : RE :=
  reSeqs [.opt (reSeqs [.group 1 (.plusC isWordChar), .starC wsC, .ch '=', .starC wsC]),
    .group 2 (.plusC (notC '(')), .ch '(', .group 3 (.starC (notC ')')), .ch ')',
    .starC wsC, reLit ("->"), .starC wsC, .ch '[', reLit ("return:"), .starC wsC,
    reLit ("bb"), .group 4 (.plusC digC), unwindOptPart 5, .ch ']', .starC wsC, .ch ';']

/-- `(?:^|,)\s*(?:move\s+)?(_\d+)\b` -/
def firstLocalPattern : RE :=
  reSeqs [.alt .bos (.ch ','), .starC wsC, .opt (.seq (reLit ("move")) (.plusC wsC)),
    .group 1 (.seq (.ch '_') (.plusC digC)), .wb]

/-- `scope\s+\d+` (used with `re.match`). -/
def scopePattern : RE :=
  reSeqs [reLit ("scope"), .plusC wsC, .plusC digC]

/-- `debug\s+` (used with `re.match`). -/
def debugPattern : RE :=
  .seq (reLit ("debug")) (.plusC wsC)

/-- `re.findall(r"bb(\d+)", s)`: every `bb` followed by digits, left to
right, non-overlapping, duplicates kept. Fueled scanner (each step
consumes at least one character, so `length + 1` fuel is exact). -/
def findAllBBF : Nat → Str → List Nat
  | 0, _ => []
  | _ + 1, [] => []
  | fuel + 1, c :: rest =>
    if c == 'b' then
      match rest with
      | 'b' :: r2 =>
        let digs := r2.takeWhile digC
        if digs.isEmpty then findAllBBF fuel rest
        else digitsToNat digs :: findAllBBF fuel (r2.drop digs.length)
      | _ => findAllBBF fuel rest
    else findAllBBF fuel rest

def findAllBB (s : Str) : List Nat := findAllBBF (s.length + 1) s

/-! ### MIR data model (`mir_model.py`) -/

structure LocalDecl where
  name : Str
  ty_str : Str
  is_mut : Bool
deriving DecidableEq, Repr

inductive Terminator where
  | goto (target_bb : Nat)
  | ret
  | switch (targets : List Nat)
  | drop (lcl : Str) (return_target : Nat) (unwind_target : Option Nat)
  | call (lhs : Option Str) (callee : Str) (args_str : Str)
      (return_target : Nat) (unwind_target : Option Nat)
deriving DecidableEq, Repr

structure BasicBlock where
  bb_id : Nat
  statements : List Str
  terminator : Option Terminator
  is_cleanup : Bool
  line_start : Nat
deriving DecidableEq, Repr

structure MirFunction where
  name : Str
  locals : List LocalDecl
  basic_blocks : List BasicBlock
  guard_to_mutex_key : List (Str × Str)
  ref_to_base : List (Str × Str)
deriving DecidableEq, Repr

/-! ### MIR parser (`mir_parser.py`) -/

/-- `_extract_first_local(args_str)`. -/
def extract_first_local (args_str : Str) : Option Str :=
  (reFind firstLocalPattern (stripL args_str)).bind (fun caps => getGroup caps 1)

/-- `_resolve_mutex_key(local, ref_to_base)`. -/
def resolve_mutex_key (lcl : Str) (ref_to_base : List (Str × Str)) : Str :=
  dgetD ref_to_base lcl lcl

/-- The block-body collection loop of `_parse_function_body`
(lines after a `bbK: {` header, up to the next block header or a bare
`}` line): returns the collected block lines and the remaining lines. -/
def collectBlock : List Str → List Str × List Str
  | [] => ([], [])
  | l :: rest =>
    let ls := stripL l
    if (reMatchA bbPattern ls).isSome then ([], l :: rest)
    else if ls == lchars ("\x7d") then ([], rest)
    else
      let (bls, rem) := collectBlock rest
      (l :: bls, rem)

/-- Ref-assignment scanning over collected block lines
(`ref_to_base[_i] = _j` for every line matching `refPattern`). -/
def scanRefs (refT : List (Str × Str)) (blockLines : List Str) : List (Str × Str) :=
  blockLines.foldl
    (fun t l =>
      match reFind refPattern (stripL l) with
      | some caps =>
        match getGroup caps 1, getGroup caps 2 with
        | some a, some b => dset t a b
        | _, _ => t
      | none => t)
    refT

/-- Mutex-lock callee recognition:
`("Mutex" in callee and "lock" in callee) or "mutex::lock" in callee.lower()`. -/
def isMutexLockCallee (callee : Str) : Bool :=
  (containsL callee (lchars ("Mutex")) && containsL callee (lchars ("lock")))
    || containsL (lowerL callee) (lchars ("mutex::lock"))

/-- Terminator detection over `reversed(block_lines)` with the source's
pattern priority (goto, return, drop, switchInt, call), plus the guard
binding / unwrap propagation performed when a call terminator is adopted.
Takes the reversed block lines; returns the terminator (if any) and the
updated `guard_to_mutex_key`. -/
def findTermAux (refT : List (Str × Str)) (guardT : List (Str × Str)) :
    List Str → Option Terminator × List (Str × Str)
  | [] => (none, guardT)
  | l :: rest =>
    let bs := stripL l
    match reFind gotoPattern bs with
    | some caps =>
      (some (.goto (digitsToNat ((getGroup caps 1).getD []))), guardT)
    | none =>
    if (reFind returnPattern bs).isSome then (some .ret, guardT)
    else match reFind dropPattern bs with
    | some caps =>
      (some (.drop (stripL ((getGroup caps 1).getD []))
        (digitsToNat ((getGroup caps 2).getD []))
        ((getGroup caps 3).map digitsToNat)), guardT)
    | none =>
    match reFind switchPattern bs with
    | some caps =>
      (some (.switch (findAllBB ((getGroup caps 1).getD []))), guardT)
    | none =>
    match reFind callPattern bs with
    | some caps =>
      let lhs := getGroup caps 1
      let callee := stripL ((getGroup caps 2).getD [])
      let args := stripL ((getGroup caps 3).getD [])
      let term := Terminator.call lhs callee args
        (digitsToNat ((getGroup caps 4).getD []))
        ((getGroup caps 5).map digitsToNat)
      let guardT' :=
        if isMutexLockCallee callee then
          match extract_first_local args with
          | some fa =>
            let mk := resolve_mutex_key fa refT
            match lhs with
            | some l => dset guardT l mk
            | none => guardT
          | none => guardT
        else if (containsL callee (lchars ("::unwrap"))
              || containsL callee (lchars ("::expect"))) && lhs.isSome then
          match extract_first_local args with
          | some fa =>
            match dget? guardT fa with
            | some v =>
              match lhs with
              | some l => dset guardT l v
              | none => guardT
            | none => guardT
          | none => guardT
        else guardT
      (some term, guardT')
    | none => findTermAux refT guardT rest

def findTerm (refT guardT : List (Str × Str)) (blockLines : List Str) :
    Option Terminator × List (Str × Str) :=
  findTermAux refT guardT blockLines.reverse

/-- Parsing state of `_parse_function_body`'s main loop. -/
structure PFState where
  locals : List LocalDecl
  refToBase : List (Str × Str)
  blocks : List BasicBlock
  guardT : List (Str × Str)
  seenBB : Bool
deriving Repr

/-- One step per top-level line of the `_parse_function_body` loop
(fueled; every iteration consumes at least one line, so `length + 1`
fuel is exact). `i` is the current line index within the body, used for
`line_start`. The `bbCase` closure is the basic-block branch, shared by
its two call sites because Python falls through the `let` test when
`seen_bb` is already set. -/
def pfLoop (fnStartLine : Nat) : Nat → Nat → List Str → PFState → PFState
  | 0, _, _, st => st
  | _ + 1, _, [], st => st
  | fuel + 1, i, ln :: rest, st =>
    let stripped := stripL ln
    let bbCase : Unit → PFState := fun _ =>
      match reMatchA bbPattern stripped with
      | some caps =>
        let bbId := digitsToNat ((getGroup caps 1).getD [])
        let isCleanup := containsL ln (lchars ("(cleanup)"))
        let lineStart := fnStartLine + i + 1
        let blockRem := collectBlock rest
        let refT' := scanRefs st.refToBase blockRem.1
        let termGuard := findTerm refT' st.guardT blockRem.1
        let stmts :=
          if termGuard.1.isSome && !blockRem.1.isEmpty then blockRem.1.dropLast
          else blockRem.1
        let bb : BasicBlock :=
          { bb_id := bbId, statements := stmts, terminator := termGuard.1
            is_cleanup := isCleanup, line_start := lineStart }
        let consumed := rest.length - blockRem.2.length
        pfLoop fnStartLine fuel (i + 1 + consumed) blockRem.2
          { st with
              refToBase := refT'
              blocks := st.blocks ++ [bb]
              guardT := termGuard.2
              seenBB := true }
      | none => pfLoop fnStartLine fuel (i + 1) rest st
    if (reMatchA scopePattern stripped).isSome
        || (reMatchA debugPattern stripped).isSome then
      pfLoop fnStartLine fuel (i + 1) rest st
    else
      match reFind letPattern stripped with
      | some caps =>
        if !st.seenBB then
          let decl : LocalDecl :=
            { name := (getGroup caps 2).getD []
              ty_str := stripL ((getGroup caps 3).getD [])
              is_mut := (getGroup caps 1).isSome }
          pfLoop fnStartLine fuel (i + 1) rest { st with locals := st.locals ++ [decl] }
        else
          bbCase ()
      | none => bbCase ()


/-- `_parse_function_body(fn_name, body, fn_start_line)`. -/
def parse_function_body (fnName : Str) (body : Str) (fnStartLine : Nat) : MirFunction :=
  let ls := splitNl body
  let st := pfLoop fnStartLine (ls.length + 1) 0 ls
    { locals := [], refToBase := [], blocks := [], guardT := [], seenBB := false }
  { name := fnName
    locals := st.locals
    basic_blocks := st.blocks
    guard_to_mutex_key := st.guardT
    ref_to_base := st.refToBase }

/-- The brace-balancing scan of `parse_mir`: consumes characters from just
after the opening brace, tracking depth, and stops after the character
that brings the depth to zero (or at end of input). Returns the consumed
characters (the matching brace included when found) and the rest. -/
def braceScan (depth : Nat) : Str → Str × Str
  | [] => ([], [])
  | c :: rest =>
    let d' := if c == '{' then depth + 1 else if c == '}' then depth - 1 else depth
    if d' == 0 then ([c], rest)
    else
      let p := braceScan d' rest
      (c :: p.1, p.2)

def countNl (s : Str) : Nat := s.countP (fun c => c == '\n')

/-- The `while True` function-discovery loop of `parse_mir` (fueled; each
iteration consumes at least one character of the text, so `length + 1`
fuel is exact). `nl` counts the newlines already consumed. -/
def parseMirLoop : Nat → Nat → Str → List MirFunction
  | 0, _, _ => []
  | fuel + 1, nl, text =>
    match reSearch fnPattern text with
    | none => []
    | some (before, caps, matched, after) =>
      let fnName := (getGroup caps 1).getD []
      let fnStart := nl + countNl before + 1
      let p := braceScan 1 after
      let fnBody := p.1.dropLast
      let func := parse_function_body fnName fnBody fnStart
      func :: parseMirLoop fuel (nl + countNl before + countNl matched + countNl p.1) p.2

/-- `parse_mir(text)`. The body parser `parse_function_body` is total, so
the `except` re-raise path of the source (reachable only through an
unexpected runtime exception inside `_parse_function_body`) never fires;
`parse_mir` always returns a function list. -/
def parse_mir (text : Str) : List MirFunction :=
  parseMirLoop (text.length + 1) 0 text

/-- `ParseError(message, function, basic_block, line)` carrier, for the
error channel of `parse_mir`'s contract. -/
structure PError where
  message : Str
  function : Str
  basic_block : Str
  line : Nat
deriving DecidableEq, Repr

/-- `parse_mir` with its error channel made explicit: the only `raise`
sites in `parse_mir` (mir_parser.py lines 78-84) re-wrap exceptions
thrown by `_parse_function_body`, and the embedded body parser is total,
so the result is always `ok`. The brace-balancing scan itself (lines
68-77) has no failure path: running off the end of the text leaves the
loop with `i = len(text)` and the body is `text[m.end():i-1]`. -/
def parse_mir_exc (text : Str) : Except PError (List MirFunction) :=
  Except.ok (parse_mir text)

/-! ### Petri-net data model (`pn_model.py`) -/

structure Place where
  id : Str
  name : Str
  kind : Str
  init_tokens : Nat
  annotations : List (Str × Str)
deriving DecidableEq, Repr

structure Transition where
  id : Str
  name : Str
  kind : Str
  op : Option Str
  annotations : List (Str × Str)
deriving DecidableEq, Repr

structure Arc where
  id : Str
  source : Str
  target : Str
  weight : Nat
deriving DecidableEq, Repr

structure Warning where
  function : Str
  basic_block : Str
  line : Nat
  reason : Str
  callee : Option Str
deriving DecidableEq, Repr

structure PetriNet where
  places : List Place
  transitions : List Transition
  arcs : List Arc
  initial_marking : List (Str × Nat)
  warnings : List Warning
deriving DecidableEq, Repr

/-- `PetriNet.place_by_id`. -/
def place_by_id (net : PetriNet) (pid : Str) : Option Place :=
  net.places.find? (fun p => p.id == pid)

/-- `PetriNet.transition_by_id`. -/
def transition_by_id (net : PetriNet) (tid : Str) : Option Transition :=
  net.transitions.find? (fun t => t.id == tid)

/-! ### Petri-net builder (`pn_builder.py`) -/

/-- The builder's closure state: the net under construction plus the
`seen_places` / `seen_transitions` sets and the arc-id counter. -/
structure BuildSt where
  net : PetriNet
  seenPlaces : List Str
  seenTransitions : List Str
  arcCounter : Nat
deriving Repr

def emptyBuildSt : BuildSt :=
  { net := { places := [], transitions := [], arcs := [], initial_marking := [], warnings := [] }
    seenPlaces := []
    seenTransitions := []
    arcCounter := 0 }

/-- `add_place(place)`: id-keyed idempotent insertion; records the initial
marking when the token count is positive. -/
def add_place (st : BuildSt) (p : Place) : BuildSt :=
  if p.id ∈ st.seenPlaces then st
  else
    { st with
        seenPlaces := p.id :: st.seenPlaces
        net := { st.net with
          places := st.net.places ++ [p]
          initial_marking :=
            if p.init_tokens > 0 then st.net.initial_marking ++ [(p.id, p.init_tokens)]
            else st.net.initial_marking } }

/-- `add_transition(t)`: id-keyed idempotent insertion. -/
def add_transition (st : BuildSt) (t : Transition) : BuildSt :=
  if t.id ∈ st.seenTransitions then st
  else
    { st with
        seenTransitions := t.id :: st.seenTransitions
        net := { st.net with transitions := st.net.transitions ++ [t] } }

/-- `add_arc(source, target, weight)` with the fresh `arc_N` id. -/
def add_arc (st : BuildSt) (source target : Str) (weight : Nat) : BuildSt :=
  { st with
      arcCounter := st.arcCounter + 1
      net := { st.net with
        arcs := st.net.arcs ++
          [{ id := lchars ("arc_") ++ natToStr (st.arcCounter + 1)
             source := source, target := target, weight := weight }] } }

def addWarning (st : BuildSt) (w : Warning) : BuildSt :=
  { st with net := { st.net with warnings := st.net.warnings ++ [w] } }

def entryPlaceId (f : Str) : Str := lchars ("p_") ++ f ++ lchars ("_entry")

def exitPlaceId (f : Str) : Str := lchars ("p_") ++ f ++ lchars ("_exit")

def bbPlaceId (f : Str) (k : Nat) : Str := lchars ("p_") ++ f ++ lchars ("_bb") ++ natToStr k

def freePlaceId (k : Str) : Str := lchars ("p_mutex_") ++ k ++ lchars ("_free")

def heldPlaceId (k : Str) : Str := lchars ("p_mutex_") ++ k ++ lchars ("_held")

def startTransId (f : Str) : Str := lchars ("t_") ++ f ++ lchars ("_start")

def edgeTransId (f : Str) (src tgt : Nat) : Str :=
  lchars ("t_") ++ f ++ lchars ("_bb") ++ natToStr src ++ lchars ("_to_bb") ++ natToStr tgt

def retTransId (f : Str) (src : Nat) : Str :=
  lchars ("t_") ++ f ++ lchars ("_bb") ++ natToStr src ++ lchars ("_return")

/-- `_ensure_mutex_places(net, add_place, key)`. -/
def ensure_mutex_places (st : BuildSt) (key : Str) : BuildSt :=
  let pFree : Place :=
    { id := freePlaceId key, name := lchars ("mutex_") ++ key ++ lchars ("_free")
      kind := lchars ("mutex_free"), init_tokens := 1, annotations := [] }
  let pHeld : Place :=
    { id := heldPlaceId key, name := lchars ("mutex_") ++ key ++ lchars ("_held")
      kind := lchars ("mutex_held"), init_tokens := 0, annotations := [] }
  add_place (add_place st pFree) pHeld

/-- The `bb_to_place` mapping: one entry per non-cleanup block, keyed by
`bb_id` (re-insertion of a duplicate id writes the same place id, so an
append-keep-first association list is equivalent to the Python dict). -/
def mkBBMap (f : Str) (blocks : List BasicBlock) : List (Nat × Str) :=
  blocks.foldl
    (fun m bb => if bb.is_cleanup then m else m ++ [(bb.bb_id, bbPlaceId f bb.bb_id)])
    []

def lookupBB (m : List (Nat × Str)) (k : Nat) : Option Str :=
  (m.find? (fun kv => kv.1 == k)).map (·.2)

/-- Successor-list and lock/unlock classification of one terminator,
plus the warning the classification may append
(`_build_function_net`, the `isinstance` dispatch). -/
def classifyTerm (f : Str) (guardT refT : List (Str × Str)) (bb : BasicBlock)
    (term : Terminator) : List Nat × Option Str × Option Str × Option Warning :=
  match term with
  | .goto t => ([t], none, none, none)
  | .ret => ([], none, none, none)
  | .switch ts => (ts, none, none, none)
  | .drop l r _ =>
    match dget? guardT l with
    | some k => ([r], none, some k, none)
    | none =>
      ([r], none, none, some
        { function := f, basic_block := lchars ("bb") ++ natToStr bb.bb_id
          line := bb.line_start
          reason := lchars ("drop(") ++ l ++ lchars (") not in guard binding table")
          callee := some (lchars ("drop")) })
  | .call _ callee args r _ =>
    if isMutexLockCallee callee then
      match extract_first_local args with
      | some fa => ([r], some (resolve_mutex_key fa refT), none, none)
      | none =>
        ([r], none, none, some
          { function := f, basic_block := lchars ("bb") ++ natToStr bb.bb_id
            line := bb.line_start
            reason := lchars ("Mutex::lock call but no local in args")
            callee := some callee })
    else
      ([r], none, none, some
        { function := f, basic_block := lchars ("bb") ++ natToStr bb.bb_id
          line := bb.line_start
          reason := lchars ("unrecognized call, treated as CFG edge")
          callee := some callee })

/-- The edge transition allocated for one (source block, target) pair:
id `t_{f}_bb{K}_to_bb{M}`, kind and `op` from the lock/unlock keys. -/
def edgeTrans (f : Str) (srcBB target : Nat) (lockKey unlockKey : Option Str) :
    Transition :=
  { id := edgeTransId f srcBB target
    name := f ++ lchars ("_bb") ++ natToStr srcBB ++ lchars ("_to_bb") ++ natToStr target
    kind :=
      match lockKey with
      | some _ => lchars ("lock")
      | none => match unlockKey with
        | some _ => lchars ("unlock")
        | none => lchars ("cfg")
    op := lockKey.orElse (fun _ => unlockKey)
    annotations := [] }

/-- The per-target body of the successor loop: edge transition, CFG arcs
and, for lock/unlock edges, the mutex places and resource arcs. -/
def processTarget (f : Str) (srcBB : Nat) (srcPlace : Str)
    (lockKey unlockKey : Option Str) (bbMap : List (Nat × Str))
    (st : BuildSt) (target : Nat) : BuildSt :=
  let tId := edgeTransId f srcBB target
  let t := edgeTrans f srcBB target lockKey unlockKey
  let st := add_transition st t
  let st := add_arc st srcPlace tId 1
  let st :=
    match lookupBB bbMap target with
    | some dst => add_arc st tId dst 1
    | none => st
  let st :=
    match lockKey with
    | some k =>
      let st := ensure_mutex_places st k
      let st := add_arc st (freePlaceId k) tId 1
      add_arc st tId (heldPlaceId k) 1
    | none => st
  match unlockKey with
  | some k =>
    let st := ensure_mutex_places st k
    let st := add_arc st (heldPlaceId k) tId 1
    add_arc st tId (freePlaceId k) 1
  | none => st

/-- The distinguished exit transition of a `Return` block:
`t_{f}_bb{K}_return`, kind `cfg`. -/
def retTrans (f : Str) (bbId : Nat) : Transition :=
  { id := retTransId f bbId
    name := f ++ lchars ("_bb") ++ natToStr bbId ++ lchars ("_return")
    kind := lchars ("cfg"), op := none, annotations := [] }

/-- The per-block body of the CFG loop of `_build_function_net`. -/
def processBlock (f : Str) (guardT refT : List (Str × Str)) (bbMap : List (Nat × Str))
    (exitId : Str) (st : BuildSt) (bb : BasicBlock) : BuildSt :=
  if bb.is_cleanup then st
  else
    match lookupBB bbMap bb.bb_id with
    | none => st
    | some srcPlace =>
      match bb.terminator with
      | none =>
        addWarning st
          { function := f, basic_block := lchars ("bb") ++ natToStr bb.bb_id
            line := bb.line_start, reason := lchars ("no terminator found")
            callee := none }
      | some term =>
        let cls := classifyTerm f guardT refT bb term
        let st := match cls.2.2.2 with
          | some w => addWarning st w
          | none => st
        let st := cls.1.foldl (processTarget f bb.bb_id srcPlace cls.2.1 cls.2.2.1 bbMap) st
        match term with
        | .ret =>
          let tr := retTrans f bb.bb_id
          let st := add_transition st tr
          let st := add_arc st srcPlace (retTransId f bb.bb_id) 1
          add_arc st (retTransId f bb.bb_id) exitId 1
        | _ => st

/-- The start transition `t_{f}_start`, kind `cfg`. -/
def startTrans (f : Str) : Transition :=
  { id := startTransId f, name := f ++ lchars ("_start")
    kind := lchars ("cfg"), op := none, annotations := [] }

/-- `_build_function_net(fn, entry_fn, net, ...)`.

The Python builds `bb_to_place` inside the same loop that allocates the
block places; the mapping is only read after that loop, so computing it
up front with `mkBBMap` is behaviour-preserving. -/
def build_function_net (entry_fn : Str) (st : BuildSt) (fn : MirFunction) : BuildSt :=
  let f := fn.name
  let pEntry : Place :=
    { id := entryPlaceId f, name := f ++ lchars ("_entry"), kind := lchars ("cfg")
      init_tokens := if f = entry_fn then 1 else 0, annotations := [] }
  let st := add_place st pEntry
  let pExit : Place :=
    { id := exitPlaceId f, name := f ++ lchars ("_exit"), kind := lchars ("cfg")
      init_tokens := 0, annotations := [] }
  let st := add_place st pExit
  let bbMap := mkBBMap f fn.basic_blocks
  let st := fn.basic_blocks.foldl
    (fun st bb =>
      if bb.is_cleanup then st
      else add_place st
        { id := bbPlaceId f bb.bb_id
          name := f ++ lchars ("_bb") ++ natToStr bb.bb_id
          kind := lchars ("cfg"), init_tokens := 0, annotations := [] })
    st
  let st :=
    match fn.basic_blocks.find? (fun b => !b.is_cleanup) with
    | some firstBB =>
      let tStart := startTrans f
      let st := add_transition st tStart
      let st := add_arc st (entryPlaceId f) (startTransId f) 1
      add_arc st (startTransId f) ((lookupBB bbMap firstBB.bb_id).getD []) 1
    | none => st
  fn.basic_blocks.foldl
    (processBlock f fn.guard_to_mutex_key fn.ref_to_base bbMap (exitPlaceId f)) st

/-- The `fns_to_process` prefix selection of `build_petri_net`. -/
def fns_to_process (functions : List MirFunction) (max_fns : Option Nat) :
    List MirFunction :=
  match max_fns with
  | some n => functions.take n
  | none => functions

/-- `build_petri_net(functions, entry_fn, max_fns)`. -/
def build_petri_net (functions : List MirFunction) (entry_fn : Str)
    (max_fns : Option Nat) : PetriNet :=
  ((fns_to_process functions max_fns).foldl (build_function_net entry_fn)
    emptyBuildSt).net

/-! ### PNML writer (`pnml_writer.py`)

The element tree built by `write_pnml` before `_indent` / serialization
(the latter two only add whitespace and write the file). -/

inductive Xml where
  | elem (tag : Str) (attrs : List (Str × Str)) (text : Option Str) (children : List Xml)

def xmlTag : Xml → Str
  | .elem t _ _ _ => t

def xmlChildren : Xml → List Xml
  | .elem _ _ _ cs => cs

def xmlTextElem (t : Str) : Xml :=
  .elem (lchars ("text")) [] (some t) []

def xmlNameElem (n : Str) : Xml :=
  .elem (lchars ("name")) [] none [xmlTextElem n]

def toolspecificElem (annots : List (Str × Str)) : Xml :=
  .elem (lchars ("toolspecific"))
    [(lchars ("tool"), lchars ("mir2pnml_py")), (lchars ("version"), lchars ("0.1"))]
    none
    (annots.map (fun kv => .elem kv.1 [] (some kv.2) []))

def placeElem (p : Place) : Xml :=
  .elem (lchars ("place")) [(lchars ("id"), p.id)] none
    ([xmlNameElem p.name]
      ++ (if p.init_tokens > 0 then
            [Xml.elem (lchars ("initialMarking")) [] none [xmlTextElem (natToStr p.init_tokens)]]
          else [])
      ++ (if !p.annotations.isEmpty then [toolspecificElem p.annotations] else []))

def transitionElem (t : Transition) : Xml :=
  .elem (lchars ("transition")) [(lchars ("id"), t.id)] none
    ([xmlNameElem t.name]
      ++ (if !t.annotations.isEmpty then [toolspecificElem t.annotations] else []))

def arcElem (a : Arc) : Xml :=
  .elem (lchars ("arc"))
    [(lchars ("id"), a.id), (lchars ("source"), a.source), (lchars ("target"), a.target)]
    none
    (if a.weight != 1 then
      [Xml.elem (lchars ("inscription")) [] none [xmlTextElem (natToStr a.weight)]]
    else [])

/-- The children of the single `<page>` element, in emission order. -/
def pnmlPageChildren (net : PetriNet) : List Xml :=
  net.places.map placeElem ++ net.transitions.map transitionElem ++ net.arcs.map arcElem

/-- The element tree `write_pnml` serializes. -/
def write_pnml_tree (net : PetriNet) : Xml :=
  .elem (lchars ("pnml")) [] none
    [.elem (lchars ("net"))
      [(lchars ("id"), lchars ("mir2pnml_net")),
       (lchars ("type"), lchars ("http://www.pnml.org/version-2009/grammar/ptnet"))]
      none
      [.elem (lchars ("page")) [(lchars ("id"), lchars ("page0"))] none
        (pnmlPageChildren net)]]

/-- A place id "of the form `p_{fn}_entry`" (the function-entry place id
scheme): prefix `p_`, suffix `_entry`, length at least 8. -/
def entryLike (id : Str) : Bool :=
  decide (lchars ("p_") <+: id) && decide (lchars ("_entry") <:+ id)
    && decide (8 ≤ id.length)

/-! ### Builder invariants -/

/-- The place ids of the net under construction, in insertion order. -/
def bids (st : BuildSt) : List Str := st.net.places.map Place.id

/-- Every place the builder ever inserts has one of the five id shapes,
with the initial tokens that shape carries (`e` is the entry function). -/
def PlaceOk (e : Str) (p : Place) : Prop :=
  (∃ f, p.id = entryPlaceId f ∧ p.init_tokens = if f = e then 1 else 0)
    ∨ (∃ f, p.id = exitPlaceId f ∧ p.init_tokens = 0)
    ∨ (∃ f n, p.id = bbPlaceId f n ∧ p.init_tokens = 0)
    ∨ (∃ k, p.id = freePlaceId k ∧ p.init_tokens = 1)
    ∨ (∃ k, p.id = heldPlaceId k ∧ p.init_tokens = 0)

/-- A lock/unlock transition carries a key whose mutex places exist. -/
def TransOk (pl : List Str) (t : Transition) : Prop :=
  t.kind = lchars ("lock") ∨ t.kind = lchars ("unlock") →
    ∃ k, t.op = some k ∧ freePlaceId k ∈ pl ∧ heldPlaceId k ∈ pl

/-- The master invariant of the construction. -/
def BuildInv (e : Str) (st : BuildSt) : Prop :=
  (bids st).Nodup
    ∧ (∀ x, x ∈ st.seenPlaces ↔ x ∈ bids st)
    ∧ (∀ p ∈ st.net.places, PlaceOk e p)
    ∧ (∀ t ∈ st.net.transitions, TransOk (bids st) t)
    ∧ (∀ t ∈ st.net.transitions, ∃ a ∈ st.net.arcs, a.target = t.id)
    ∧ (∀ a ∈ st.net.arcs, a.weight = 1)

/-! The transition-free part of the invariant, used while a freshly
inserted transition is still waiting for its arcs. -/

def BuildInvL (e : Str) (st : BuildSt) : Prop :=
  (bids st).Nodup
    ∧ (∀ x, x ∈ st.seenPlaces ↔ x ∈ bids st)
    ∧ (∀ p ∈ st.net.places, PlaceOk e p)
    ∧ (∀ a ∈ st.net.arcs, a.weight = 1)

/-! ### Concrete inputs for the end-to-end claims -/

/-- Scenario-3 text exactly as the claim words it: the lock callee is the
bare name `lock`. -/
def mirTextBareLock : Str := lchars
  ("fn main() -> () \x7b\n    bb0: \x7b\n        _2 = lock(move _1) -> [return: bb1, unwind: continue];\n    \x7d\n    bb1: \x7b\n        _5 = Result::unwrap(move _2) -> [return: bb2, unwind: continue];\n    \x7d\n    bb2: \x7b\n        drop(_5) -> [return: bb3, unwind: continue];\n    \x7d\n    bb3: \x7b\n        return;\n    \x7d\n\x7d\n")

/-- Scenario-3 text with a callee that matches the recognizer
(`Mutex` and `lock` both appear as substrings). -/
def mirTextMutexLock : Str := lchars
  ("fn main() -> () \x7b\n    bb0: \x7b\n        _2 = Mutex::lock(move _1) -> [return: bb1, unwind: continue];\n    \x7d\n    bb1: \x7b\n        _5 = Result::unwrap(move _2) -> [return: bb2, unwind: continue];\n    \x7d\n    bb2: \x7b\n        drop(_5) -> [return: bb3, unwind: continue];\n    \x7d\n    bb3: \x7b\n        return;\n    \x7d\n\x7d\n")

/-- A block that rebinds `_5` by two reference assignments. -/
def mirTextRefRebind : Str := lchars
  ("fn main() -> () \x7b\n    bb0: \x7b\n        _5 = &_1;\n        _5 = &_2;\n        goto -> bb1;\n    \x7d\n    bb1: \x7b\n        return;\n    \x7d\n\x7d\n")

/-- Two lock calls assigning the same LHS `_2` in consecutive blocks. -/
def mirTextGuardRebind : Str := lchars
  ("fn main() -> () \x7b\n    bb0: \x7b\n        _2 = std::Mutex::lock(move _1) -> [return: bb1, unwind: continue];\n    \x7d\n    bb1: \x7b\n        _2 = std::Mutex::lock(move _3) -> [return: bb2, unwind: continue];\n    \x7d\n    bb2: \x7b\n        return;\n    \x7d\n\x7d\n")

/-- A function header whose body never closes its braces. -/
def mirTextUnbalanced : Str := lchars
  ("fn main() -> () \x7b\n    bb0: \x7b\n        return;\n")

/-- Scenario 2: `_3 = &_1;` then `_2 = Mutex::lock(move _3)`. -/
def mirTextAlias : Str := lchars
  ("fn main() -> () \x7b\n    bb0: \x7b\n        _3 = &_1;\n        _2 = Mutex::lock(move _3) -> [return: bb1, unwind: continue];\n    \x7d\n    bb1: \x7b\n        return;\n    \x7d\n\x7d\n")

/-- A two-step reference chain `_3 = &_1; _4 = &_3;` before the lock:
resolution stops after one `ref_to_base` hop. -/
def mirTextAliasChain : Str := lchars
  ("fn main() -> () \x7b\n    bb0: \x7b\n        _3 = &_1;\n        _4 = &_3;\n        _2 = Mutex::lock(move _4) -> [return: bb1, unwind: continue];\n    \x7d\n    bb1: \x7b\n        return;\n    \x7d\n\x7d\n")

/-- The minimal lock/drop function, in parsed form (one lock call on `_1`
returning guard `_2`, a drop of `_2`, a return). -/
def fnLockDrop : MirFunction :=
  { name := lchars ("main"), locals := []
    basic_blocks :=
      [ { bb_id := 0, statements := []
          terminator := some (.call (some (lchars ("_2"))) (lchars ("Mutex::lock"))
            (lchars ("move _1")) 1 none)
          is_cleanup := false, line_start := 0 },
        { bb_id := 1, statements := []
          terminator := some (.drop (lchars ("_2")) 2 none)
          is_cleanup := false, line_start := 0 },
        { bb_id := 2, statements := [], terminator := some .ret
          is_cleanup := false, line_start := 0 } ]
    guard_to_mutex_key := [(lchars ("_2"), lchars ("_1"))], ref_to_base := [] }

/-- A function whose `switchInt` target list repeats `bb1`. -/
def fnSwitchDup : MirFunction :=
  { name := lchars ("main"), locals := []
    basic_blocks :=
      [ { bb_id := 0, statements := [], terminator := some (.switch [1, 1])
          is_cleanup := false, line_start := 0 },
        { bb_id := 1, statements := [], terminator := some .ret
          is_cleanup := false, line_start := 0 } ]
    guard_to_mutex_key := [], ref_to_base := [] }

/-- A function whose `switchInt` has three distinct targets. -/
def fnSwitchThree : MirFunction :=
  { name := lchars ("main"), locals := []
    basic_blocks :=
      [ { bb_id := 0, statements := [], terminator := some (.switch [1, 2, 3])
          is_cleanup := false, line_start := 0 },
        { bb_id := 1, statements := [], terminator := some .ret
          is_cleanup := false, line_start := 0 },
        { bb_id := 2, statements := [], terminator := some .ret
          is_cleanup := false, line_start := 0 },
        { bb_id := 3, statements := [], terminator := some .ret
          is_cleanup := false, line_start := 0 } ]
    guard_to_mutex_key := [], ref_to_base := [] }

/-- A goto whose successor block is a cleanup block. -/
def fnGotoCleanup : MirFunction :=
  { name := lchars ("main"), locals := []
    basic_blocks :=
      [ { bb_id := 0, statements := [], terminator := some (.goto 1)
          is_cleanup := false, line_start := 0 },
        { bb_id := 1, statements := [], terminator := some .ret
          is_cleanup := true, line_start := 0 } ]
    guard_to_mutex_key := [], ref_to_base := [] }

/-- A single function named `foo` (processed with entry_fn `main`). -/
def fnFoo : MirFunction :=
  { name := lchars ("foo"), locals := []
    basic_blocks :=
      [ { bb_id := 0, statements := [], terminator := some .ret
          is_cleanup := false, line_start := 0 } ]
    guard_to_mutex_key := [], ref_to_base := [] }

/-! ### Facts about the id scheme -/

lemma natToStrAux_digits :
    ∀ fuel n acc, (∀ c ∈ acc, c.isDigit = true) →
      ∀ c ∈ natToStrAux fuel n acc, c.isDigit = true := by
  intro fuel
  induction fuel with
  | zero => intro n acc hacc c hc; exact hacc c hc
  | succ fuel ih =>
    intro n acc hacc c hc
    rw [natToStrAux] at hc
    split at hc
    · rcases List.mem_cons.mp hc with h | h
      · subst h
        rename_i hn
        interval_cases n <;> decide
      · exact hacc c h
    · refine ih (n / 10) _ ?_ c hc
      intro d hd
      rcases List.mem_cons.mp hd with h | h
      · subst h
        have : n % 10 < 10 := Nat.mod_lt _ (by omega)
        interval_cases h : (n % 10) <;> decide
      · exact hacc d h

lemma natToStr_digits (n : Nat) : ∀ c ∈ natToStr n, c.isDigit = true :=
  natToStrAux_digits (n + 1) n [] (by intro c hc; cases hc)

lemma natToStrAux_ne_nil :
    ∀ fuel n acc, n < fuel → natToStrAux fuel n acc ≠ [] := by
  intro fuel
  induction fuel with
  | zero => intro n acc h; omega
  | succ fuel ih =>
    intro n acc h
    rw [natToStrAux]
    split
    · simp
    · rename_i hn
      refine ih (n / 10) _ ?_
      have h1 : n / 10 < n := Nat.div_lt_self (by omega) (by omega)
      omega

lemma natToStr_ne_nil (n : Nat) : natToStr n ≠ [] :=
  natToStrAux_ne_nil (n + 1) n [] (Nat.lt_succ_self n)

lemma entryPlaceId_last (f : Str) : (entryPlaceId f).getLast? = some 'y' := by
  unfold entryPlaceId
  have hne : lchars ("_entry") ≠ [] := by decide
  rw [List.getLast?_append_of_ne_nil _ hne]
  decide

lemma exitPlaceId_last (f : Str) : (exitPlaceId f).getLast? = some 't' := by
  unfold exitPlaceId
  have hne : lchars ("_exit") ≠ [] := by decide
  rw [List.getLast?_append_of_ne_nil _ hne]
  decide

lemma freePlaceId_last (k : Str) : (freePlaceId k).getLast? = some 'e' := by
  unfold freePlaceId
  have hne : lchars ("_free") ≠ [] := by decide
  rw [List.getLast?_append_of_ne_nil _ hne]
  decide

lemma heldPlaceId_last (k : Str) : (heldPlaceId k).getLast? = some 'd' := by
  unfold heldPlaceId
  have hne : lchars ("_held") ≠ [] := by decide
  rw [List.getLast?_append_of_ne_nil _ hne]
  decide

lemma bbPlaceId_last (f : Str) (n : Nat) :
    ∃ c, (bbPlaceId f n).getLast? = some c ∧ c.isDigit = true := by
  unfold bbPlaceId
  rw [List.getLast?_append_of_ne_nil _ (natToStr_ne_nil n)]
  have h := natToStr_ne_nil n
  rcases hl : (natToStr n).getLast? with _ | c
  · exact absurd (List.getLast?_eq_none_iff.mp hl) h
  · refine ⟨c, rfl, natToStr_digits n c ?_⟩
    obtain ⟨hne, hc⟩ := List.mem_getLast?_eq_getLast (Option.mem_def.mpr hl)
    rw [hc]
    exact List.getLast_mem hne

lemma ne_of_last {a b : Str} {c d : Char} (ha : a.getLast? = some c)
    (hb : b.getLast? = some d) (h : c ≠ d) : a ≠ b := by
  intro he
  rw [he, hb] at ha
  exact h (Option.some_injective _ ha).symm

lemma entryPlaceId_inj {f g : Str} (h : entryPlaceId f = entryPlaceId g) : f = g := by
  unfold entryPlaceId at h
  exact List.append_cancel_left (List.append_cancel_right h)

lemma freePlaceId_inj {f g : Str} (h : freePlaceId f = freePlaceId g) : f = g := by
  unfold freePlaceId at h
  exact List.append_cancel_left (List.append_cancel_right h)

lemma heldPlaceId_inj {f g : Str} (h : heldPlaceId f = heldPlaceId g) : f = g := by
  unfold heldPlaceId at h
  exact List.append_cancel_left (List.append_cancel_right h)

lemma free_ne_entry (k f : Str) : freePlaceId k ≠ entryPlaceId f :=
  ne_of_last (freePlaceId_last k) (entryPlaceId_last f) (by decide)

lemma free_ne_exit (k f : Str) : freePlaceId k ≠ exitPlaceId f :=
  ne_of_last (freePlaceId_last k) (exitPlaceId_last f) (by decide)

lemma free_ne_held (k k' : Str) : freePlaceId k ≠ heldPlaceId k' :=
  ne_of_last (freePlaceId_last k) (heldPlaceId_last k') (by decide)

lemma free_ne_bb (k f : Str) (n : Nat) : freePlaceId k ≠ bbPlaceId f n := by
  obtain ⟨c, hc, hdig⟩ := bbPlaceId_last f n
  refine ne_of_last (freePlaceId_last k) hc ?_
  intro h
  rw [← h] at hdig
  exact absurd hdig (by decide)

lemma held_ne_entry (k f : Str) : heldPlaceId k ≠ entryPlaceId f :=
  ne_of_last (heldPlaceId_last k) (entryPlaceId_last f) (by decide)

lemma held_ne_exit (k f : Str) : heldPlaceId k ≠ exitPlaceId f :=
  ne_of_last (heldPlaceId_last k) (exitPlaceId_last f) (by decide)

lemma held_ne_bb (k f : Str) (n : Nat) : heldPlaceId k ≠ bbPlaceId f n := by
  obtain ⟨c, hc, hdig⟩ := bbPlaceId_last f n
  refine ne_of_last (heldPlaceId_last k) hc ?_
  intro h
  rw [← h] at hdig
  exact absurd hdig (by decide)

lemma entry_ne_exit (f g : Str) : entryPlaceId f ≠ exitPlaceId g :=
  ne_of_last (entryPlaceId_last f) (exitPlaceId_last g) (by decide)

lemma entry_ne_bb (f g : Str) (n : Nat) : entryPlaceId f ≠ bbPlaceId g n := by
  obtain ⟨c, hc, hdig⟩ := bbPlaceId_last g n
  refine ne_of_last (entryPlaceId_last f) hc ?_
  intro h
  rw [← h] at hdig
  exact absurd hdig (by decide)

lemma exit_ne_bb (f g : Str) (n : Nat) : exitPlaceId f ≠ bbPlaceId g n := by
  obtain ⟨c, hc, hdig⟩ := bbPlaceId_last g n
  refine ne_of_last (exitPlaceId_last f) hc ?_
  intro h
  rw [← h] at hdig
  exact absurd hdig (by decide)

lemma entryLike_entryPlaceId (f : Str) : entryLike (entryPlaceId f) = true := by
  unfold entryLike entryPlaceId
  simp only [Bool.and_eq_true, decide_eq_true_eq]
  refine ⟨⟨?_, ?_⟩, ?_⟩
  · rw [List.append_assoc]
    exact List.prefix_append _ _
  · exact List.suffix_append _ _
  · have h1 : (lchars ("p_")).length = 2 := rfl
    have h2 : (lchars ("_entry")).length = 6 := rfl
    simp only [List.length_append, h1, h2]
    omega

lemma suffix_getLast {s t : Str} (h : s <:+ t) (hs : s ≠ []) :
    t.getLast? = s.getLast? := by
  obtain ⟨u, rfl⟩ := h
  exact List.getLast?_append_of_ne_nil u hs

lemma entryLike_false_of_last {id : Str} {c : Char} (h : id.getLast? = some c)
    (hc : c ≠ 'y') : entryLike id = false := by
  unfold entryLike
  rw [Bool.eq_false_iff]
  intro htrue
  simp only [Bool.and_eq_true, decide_eq_true_eq] at htrue
  have hsuf := htrue.1.2
  have := suffix_getLast hsuf (by decide)
  rw [h] at this
  have hy : (lchars ("_entry")).getLast? = some 'y' := by decide
  rw [hy] at this
  exact hc (Option.some_injective _ this)

lemma entryLike_exit (f : Str) : entryLike (exitPlaceId f) = false :=
  entryLike_false_of_last (exitPlaceId_last f) (by decide)

lemma entryLike_free (k : Str) : entryLike (freePlaceId k) = false :=
  entryLike_false_of_last (freePlaceId_last k) (by decide)

lemma entryLike_held (k : Str) : entryLike (heldPlaceId k) = false :=
  entryLike_false_of_last (heldPlaceId_last k) (by decide)

lemma entryLike_bb (f : Str) (n : Nat) : entryLike (bbPlaceId f n) = false := by
  obtain ⟨c, hc, hdig⟩ := bbPlaceId_last f n
  refine entryLike_false_of_last hc ?_
  intro h
  rw [h] at hdig
  exact absurd hdig (by decide)

lemma inv_empty (e : Str) : BuildInv e emptyBuildSt := by
  refine ⟨?_, ?_, ?_, ?_, ?_, ?_⟩ <;> simp [emptyBuildSt, bids]

/-! Component effects of the primitive operations. -/

lemma add_place_transitions (st : BuildSt) (p : Place) :
    (add_place st p).net.transitions = st.net.transitions := by
  unfold add_place; split <;> rfl

lemma add_place_arcs (st : BuildSt) (p : Place) :
    (add_place st p).net.arcs = st.net.arcs := by
  unfold add_place; split <;> rfl

lemma add_place_places (st : BuildSt) (p : Place) :
    (add_place st p).net.places = st.net.places
      ∨ (add_place st p).net.places = st.net.places ++ [p] := by
  unfold add_place; split
  · exact Or.inl rfl
  · exact Or.inr rfl

lemma add_place_bids_mono (st : BuildSt) (p : Place) {x : Str} (h : x ∈ bids st) :
    x ∈ bids (add_place st p) := by
  unfold bids at *
  rcases add_place_places st p with he | he <;> rw [he]
  · exact h
  · simp only [List.map_append, List.mem_append]
    exact Or.inl h

lemma add_place_places_mono (st : BuildSt) (p : Place) {q : Place}
    (h : q ∈ st.net.places) : q ∈ (add_place st p).net.places := by
  rcases add_place_places st p with he | he <;> rw [he]
  · exact h
  · exact List.mem_append_left _ h

lemma add_transition_places (st : BuildSt) (t : Transition) :
    (add_transition st t).net.places = st.net.places := by
  unfold add_transition; split <;> rfl

lemma add_transition_bids (st : BuildSt) (t : Transition) :
    bids (add_transition st t) = bids st := by
  unfold bids; rw [add_transition_places]

lemma add_transition_arcs (st : BuildSt) (t : Transition) :
    (add_transition st t).net.arcs = st.net.arcs := by
  unfold add_transition; split <;> rfl

lemma add_transition_seenPlaces (st : BuildSt) (t : Transition) :
    (add_transition st t).seenPlaces = st.seenPlaces := by
  unfold add_transition; split <;> rfl

lemma add_transition_transitions (st : BuildSt) (t : Transition) :
    (add_transition st t).net.transitions = st.net.transitions
      ∨ (add_transition st t).net.transitions = st.net.transitions ++ [t] := by
  unfold add_transition; split
  · exact Or.inl rfl
  · exact Or.inr rfl

lemma add_arc_places (st : BuildSt) (a b : Str) (w : Nat) :
    (add_arc st a b w).net.places = st.net.places := rfl

lemma add_arc_bids (st : BuildSt) (a b : Str) (w : Nat) :
    bids (add_arc st a b w) = bids st := rfl

lemma add_arc_transitions (st : BuildSt) (a b : Str) (w : Nat) :
    (add_arc st a b w).net.transitions = st.net.transitions := rfl

lemma add_arc_seenPlaces (st : BuildSt) (a b : Str) (w : Nat) :
    (add_arc st a b w).seenPlaces = st.seenPlaces := rfl

lemma add_arc_arcs (st : BuildSt) (a b : Str) (w : Nat) :
    (add_arc st a b w).net.arcs = st.net.arcs ++
      [{ id := lchars ("arc_") ++ natToStr (st.arcCounter + 1)
         source := a, target := b, weight := w }] := rfl

lemma addWarning_places (st : BuildSt) (w : Warning) :
    (addWarning st w).net.places = st.net.places := rfl

lemma addWarning_bids (st : BuildSt) (w : Warning) :
    bids (addWarning st w) = bids st := rfl

lemma addWarning_transitions (st : BuildSt) (w : Warning) :
    (addWarning st w).net.transitions = st.net.transitions := rfl

lemma addWarning_arcs (st : BuildSt) (w : Warning) :
    (addWarning st w).net.arcs = st.net.arcs := rfl

lemma addWarning_seenPlaces (st : BuildSt) (w : Warning) :
    (addWarning st w).seenPlaces = st.seenPlaces := rfl

/-! Invariant preservation of the primitive operations. -/

lemma inv_add_place {e : Str} {st : BuildSt} (h : BuildInv e st) {p : Place}
    (hp : PlaceOk e p) : BuildInv e (add_place st p) := by
  obtain ⟨hnd, hseen, hpl, htr, hdeg, hw⟩ := h
  unfold add_place
  split
  · exact ⟨hnd, hseen, hpl, htr, hdeg, hw⟩
  · rename_i hnotmem
    have hid : p.id ∉ bids st := fun hmem => hnotmem ((hseen p.id).mpr hmem)
    refine ⟨?_, ?_, ?_, ?_, hdeg, hw⟩
    · unfold bids at *
      simp only [List.map_append, List.map_cons, List.map_nil]
      rw [List.nodup_append]
      exact ⟨hnd, List.nodup_singleton _, by simpa using fun hx => hid hx⟩
    · intro x
      unfold bids at *
      simp only [List.mem_cons, List.map_append, List.mem_append, List.map_cons,
        List.map_nil, List.mem_singleton]
      constructor
      · rintro (rfl | hx)
        · right; left; rfl
        · exact Or.inl ((hseen x).mp hx)
      · rintro (hx | (rfl | hfalse))
        · exact Or.inr ((hseen x).mpr hx)
        · exact Or.inl rfl
        · cases hfalse
    · intro q hq
      simp only [List.mem_append, List.mem_singleton] at hq
      rcases hq with hq | rfl
      · exact hpl q hq
      · exact hp
    · intro t ht hkind
      obtain ⟨k, hk, hf, hh⟩ := htr t ht hkind
      refine ⟨k, hk, ?_, ?_⟩ <;>
        · unfold bids at *
          simp only [List.map_append, List.mem_append]
          first
            | exact Or.inl hf
            | exact Or.inl hh

lemma inv_add_arc {e : Str} {st : BuildSt} (h : BuildInv e st) (a b : Str) :
    BuildInv e (add_arc st a b 1) := by
  obtain ⟨hnd, hseen, hpl, htr, hdeg, hw⟩ := h
  refine ⟨hnd, hseen, hpl, htr, ?_, ?_⟩
  · intro t ht
    obtain ⟨arc, harc, htgt⟩ := hdeg t ht
    exact ⟨arc, List.mem_append_left _ harc, htgt⟩
  · intro arc harc
    rw [add_arc_arcs] at harc
    rcases List.mem_append.mp harc with hx | hx
    · exact hw arc hx
    · simp only [List.mem_singleton] at hx
      subst hx
      rfl

lemma inv_addWarning {e : Str} {st : BuildSt} (h : BuildInv e st) (w : Warning) :
    BuildInv e (addWarning st w) := h

lemma invL_of_inv {e : Str} {st : BuildSt} (h : BuildInv e st) : BuildInvL e st :=
  ⟨h.1, h.2.1, h.2.2.1, h.2.2.2.2.2⟩

lemma invL_add_place {e : Str} {st : BuildSt} (h : BuildInvL e st) {p : Place}
    (hp : PlaceOk e p) : BuildInvL e (add_place st p) := by
  obtain ⟨hnd, hseen, hpl, hw⟩ := h
  unfold add_place
  split
  · exact ⟨hnd, hseen, hpl, hw⟩
  · rename_i hnotmem
    have hid : p.id ∉ bids st := fun hmem => hnotmem ((hseen p.id).mpr hmem)
    refine ⟨?_, ?_, ?_, hw⟩
    · unfold bids at *
      simp only [List.map_append, List.map_cons, List.map_nil]
      rw [List.nodup_append]
      exact ⟨hnd, List.nodup_singleton _, by simpa using fun hx => hid hx⟩
    · intro x
      unfold bids at *
      simp only [List.mem_cons, List.map_append, List.mem_append, List.map_cons,
        List.map_nil, List.mem_singleton]
      constructor
      · rintro (rfl | hx)
        · right; left; rfl
        · exact Or.inl ((hseen x).mp hx)
      · rintro (hx | (rfl | hfalse))
        · exact Or.inr ((hseen x).mpr hx)
        · exact Or.inl rfl
        · cases hfalse
    · intro q hq
      simp only [List.mem_append, List.mem_singleton] at hq
      rcases hq with hq | rfl
      · exact hpl q hq
      · exact hp

lemma invL_add_transition {e : Str} {st : BuildSt} (h : BuildInvL e st)
    (t : Transition) : BuildInvL e (add_transition st t) := by
  obtain ⟨hnd, hseen, hpl, hw⟩ := h
  refine ⟨?_, ?_, ?_, ?_⟩
  · rw [add_transition_bids]; exact hnd
  · intro x; rw [add_transition_bids, add_transition_seenPlaces]; exact hseen x
  · rw [add_transition_places]; exact hpl
  · rw [add_transition_arcs]; exact hw

lemma invL_add_arc {e : Str} {st : BuildSt} (h : BuildInvL e st) (a b : Str) :
    BuildInvL e (add_arc st a b 1) := by
  obtain ⟨hnd, hseen, hpl, hw⟩ := h
  refine ⟨hnd, hseen, hpl, ?_⟩
  · intro arc harc
    rw [add_arc_arcs] at harc
    rcases List.mem_append.mp harc with hx | hx
    · exact hw arc hx
    · simp only [List.mem_singleton] at hx
      subst hx
      rfl

lemma placeOk_free (e k : Str) :
    PlaceOk e { id := freePlaceId k, name := lchars ("mutex_") ++ k ++ lchars ("_free")
                kind := lchars ("mutex_free"), init_tokens := 1, annotations := [] } :=
  Or.inr (Or.inr (Or.inr (Or.inl ⟨k, rfl, rfl⟩)))

lemma placeOk_held (e k : Str) :
    PlaceOk e { id := heldPlaceId k, name := lchars ("mutex_") ++ k ++ lchars ("_held")
                kind := lchars ("mutex_held"), init_tokens := 0, annotations := [] } :=
  Or.inr (Or.inr (Or.inr (Or.inr ⟨k, rfl, rfl⟩)))

lemma invL_ensure {e : Str} {st : BuildSt} (h : BuildInvL e st) (k : Str) :
    BuildInvL e (ensure_mutex_places st k) := by
  unfold ensure_mutex_places
  exact invL_add_place (invL_add_place h (placeOk_free e k)) (placeOk_held e k)

lemma add_place_self_mem {e : Str} {st : BuildSt} (h : BuildInvL e st) (p : Place) :
    p.id ∈ bids (add_place st p) := by
  unfold add_place
  split
  · rename_i hseen'
    exact (h.2.1 p.id).mp hseen'
  · unfold bids
    simp

lemma ensure_mem_free {e : Str} {st : BuildSt} (h : BuildInvL e st) (k : Str) :
    freePlaceId k ∈ bids (ensure_mutex_places st k) := by
  unfold ensure_mutex_places
  exact add_place_bids_mono _ _ (add_place_self_mem h _)

lemma ensure_mem_held {e : Str} {st : BuildSt} (h : BuildInvL e st) (k : Str) :
    heldPlaceId k ∈ bids (ensure_mutex_places st k) := by
  unfold ensure_mutex_places
  exact add_place_self_mem (invL_add_place h (placeOk_free e k)) _

lemma ensure_transitions (st : BuildSt) (k : Str) :
    (ensure_mutex_places st k).net.transitions = st.net.transitions := by
  unfold ensure_mutex_places
  rw [add_place_transitions, add_place_transitions]

lemma ensure_arcs (st : BuildSt) (k : Str) :
    (ensure_mutex_places st k).net.arcs = st.net.arcs := by
  unfold ensure_mutex_places
  rw [add_place_arcs, add_place_arcs]

lemma ensure_bids_mono (st : BuildSt) (k : Str) {x : Str} (h : x ∈ bids st) :
    x ∈ bids (ensure_mutex_places st k) := by
  unfold ensure_mutex_places
  exact add_place_bids_mono _ _ (add_place_bids_mono _ _ h)

lemma add_arc_mem_arcs (st : BuildSt) (a b : Str) (w : Nat) {x : Arc}
    (h : x ∈ st.net.arcs) : x ∈ (add_arc st a b w).net.arcs := by
  rw [add_arc_arcs]
  exact List.mem_append_left _ h

lemma add_arc_new_mem (st : BuildSt) (a b : Str) (w : Nat) :
    ∃ arc ∈ (add_arc st a b w).net.arcs, arc.target = b := by
  rw [add_arc_arcs]
  exact ⟨_, List.mem_append_right _ (List.mem_singleton.mpr rfl), rfl⟩

lemma ensure_mem_arcs (st : BuildSt) (k : Str) {x : Arc} (h : x ∈ st.net.arcs) :
    x ∈ (ensure_mutex_places st k).net.arcs := by
  rw [ensure_arcs]
  exact h

/-- Assembling the full invariant after a transition insertion: the final
state satisfies the light invariant, its transitions are the old ones
possibly extended by `t`, memberships are monotone, and `t` has an
incoming arc and a valid mutex obligation. -/
lemma inv_assemble {e : Str} {st st' : BuildSt} (h : BuildInv e st) (t : Transition)
    (hL : BuildInvL e st')
    (htrans : st'.net.transitions = st.net.transitions
      ∨ st'.net.transitions = st.net.transitions ++ [t])
    (hbidsm : ∀ x ∈ bids st, x ∈ bids st')
    (harcsm : ∀ a ∈ st.net.arcs, a ∈ st'.net.arcs)
    (hdeg : ∃ a ∈ st'.net.arcs, a.target = t.id)
    (htok : TransOk (bids st') t) :
    BuildInv e st' := by
  obtain ⟨_, _, _, htr, hdegs, _⟩ := h
  obtain ⟨hnd', hseen', hpl', hw'⟩ := hL
  refine ⟨hnd', hseen', hpl', ?_, ?_, hw'⟩
  · intro t' ht'
    have hold : t' ∈ st.net.transitions → TransOk (bids st') t' := by
      intro hmem hkind
      obtain ⟨k, hk, hf, hh⟩ := htr t' hmem hkind
      exact ⟨k, hk, hbidsm _ hf, hbidsm _ hh⟩
    rcases htrans with he | he <;> rw [he] at ht'
    · exact hold ht'
    · rcases List.mem_append.mp ht' with hmem | hmem
      · exact hold hmem
      · simp only [List.mem_singleton] at hmem
        subst hmem
        exact htok
  · intro t' ht'
    have hold : t' ∈ st.net.transitions → ∃ a ∈ st'.net.arcs, a.target = t'.id := by
      intro hmem
      obtain ⟨a, ha, hta⟩ := hdegs t' hmem
      exact ⟨a, harcsm a ha, hta⟩
    rcases htrans with he | he <;> rw [he] at ht'
    · exact hold ht'
    · rcases List.mem_append.mp ht' with hmem | hmem
      · exact hold hmem
      · simp only [List.mem_singleton] at hmem
        subst hmem
        exact hdeg


lemma edgeTrans_kind_cfg (f : Str) (srcBB target : Nat) :
    (edgeTrans f srcBB target none none).kind = lchars ("cfg") := rfl

lemma inv_processTarget {e : Str} (f : Str) (srcBB : Nat) (srcPlace : Str)
    (lockKey unlockKey : Option Str) (bbMap : List (Nat × Str)) {st : BuildSt}
    (h : BuildInv e st) (hnb : lockKey = none ∨ unlockKey = none) (target : Nat) :
    BuildInv e (processTarget f srcBB srcPlace lockKey unlockKey bbMap st target) := by
  rcases hl : lockKey with _ | k
  · rcases hu : unlockKey with _ | k'
    · rcases hdst : lookupBB bbMap target with _ | dst
      · simp only [processTarget, hdst]
        refine inv_assemble h (edgeTrans f srcBB target none none) ?_ ?_ ?_ ?_ ?_ ?_
        · exact invL_add_arc (invL_add_transition (invL_of_inv h) _) _ _
        · rw [add_arc_transitions]
          exact add_transition_transitions st _
        · intro x hx
          rwa [add_arc_bids, add_transition_bids]
        · intro a ha
          rw [add_arc_arcs, add_transition_arcs]
          exact List.mem_append_left _ ha
        · exact add_arc_new_mem _ _ _ 1
        · intro hkind
          rcases hkind with hk | hk <;> rw [edgeTrans_kind_cfg] at hk <;>
            exact absurd hk (by decide)
      · simp only [processTarget, hdst]
        refine inv_assemble h (edgeTrans f srcBB target none none) ?_ ?_ ?_ ?_ ?_ ?_
        · exact invL_add_arc (invL_add_arc (invL_add_transition (invL_of_inv h) _) _ _) _ _
        · rw [add_arc_transitions, add_arc_transitions]
          exact add_transition_transitions st _
        · intro x hx
          rwa [add_arc_bids, add_arc_bids, add_transition_bids]
        · intro a ha
          rw [add_arc_arcs, add_arc_arcs, add_transition_arcs]
          exact List.mem_append_left _ (List.mem_append_left _ ha)
        · obtain ⟨a, ha, hta⟩ := add_arc_new_mem (add_transition st _) srcPlace _ 1
          exact ⟨a, add_arc_mem_arcs _ _ _ _ ha, hta⟩
        · intro hkind
          rcases hkind with hk | hk <;> rw [edgeTrans_kind_cfg] at hk <;>
            exact absurd hk (by decide)
    · -- unlock edge
      rcases hdst : lookupBB bbMap target with _ | dst
      · simp only [processTarget, hdst]
        have hL2 : BuildInvL e (add_arc (add_transition st
            (edgeTrans f srcBB target none (some k'))) srcPlace
            (edgeTransId f srcBB target) 1) :=
          invL_add_arc (invL_add_transition (invL_of_inv h) _) _ _
        refine inv_assemble h (edgeTrans f srcBB target none (some k')) ?_ ?_ ?_ ?_ ?_ ?_
        · exact invL_add_arc (invL_add_arc (invL_ensure hL2 k') _ _) _ _
        · rw [add_arc_transitions, add_arc_transitions, ensure_transitions,
            add_arc_transitions]
          exact add_transition_transitions st _
        · intro x hx
          rw [add_arc_bids, add_arc_bids]
          apply ensure_bids_mono
          rwa [add_arc_bids, add_transition_bids]
        · intro a ha
          rw [add_arc_arcs, add_arc_arcs, ensure_arcs, add_arc_arcs,
            add_transition_arcs]
          exact List.mem_append_left _ (List.mem_append_left _
            (List.mem_append_left _ ha))
        · obtain ⟨a, ha, hta⟩ := add_arc_new_mem (add_transition st _) srcPlace
            (edgeTransId f srcBB target) 1
          exact ⟨a, add_arc_mem_arcs _ _ _ _ (add_arc_mem_arcs _ _ _ _
            (ensure_mem_arcs _ k' ha)), hta⟩
        · intro _
          refine ⟨k', rfl, ?_, ?_⟩
          · rw [add_arc_bids, add_arc_bids]
            exact ensure_mem_free hL2 k'
          · rw [add_arc_bids, add_arc_bids]
            exact ensure_mem_held hL2 k'
      · simp only [processTarget, hdst]
        have hL2 : BuildInvL e (add_arc (add_arc (add_transition st
            (edgeTrans f srcBB target none (some k'))) srcPlace
            (edgeTransId f srcBB target) 1) (edgeTransId f srcBB target) dst 1) :=
          invL_add_arc (invL_add_arc (invL_add_transition (invL_of_inv h) _) _ _) _ _
        refine inv_assemble h (edgeTrans f srcBB target none (some k')) ?_ ?_ ?_ ?_ ?_ ?_
        · exact invL_add_arc (invL_add_arc (invL_ensure hL2 k') _ _) _ _
        · rw [add_arc_transitions, add_arc_transitions, ensure_transitions,
            add_arc_transitions, add_arc_transitions]
          exact add_transition_transitions st _
        · intro x hx
          rw [add_arc_bids, add_arc_bids]
          apply ensure_bids_mono
          rwa [add_arc_bids, add_arc_bids, add_transition_bids]
        · intro a ha
          rw [add_arc_arcs, add_arc_arcs, ensure_arcs, add_arc_arcs, add_arc_arcs,
            add_transition_arcs]
          exact List.mem_append_left _ (List.mem_append_left _
            (List.mem_append_left _ (List.mem_append_left _ ha)))
        · obtain ⟨a, ha, hta⟩ := add_arc_new_mem (add_transition st _) srcPlace
            (edgeTransId f srcBB target) 1
          exact ⟨a, add_arc_mem_arcs _ _ _ _ (add_arc_mem_arcs _ _ _ _
            (ensure_mem_arcs _ k' (add_arc_mem_arcs _ _ _ _ ha))), hta⟩
        · intro _
          refine ⟨k', rfl, ?_, ?_⟩
          · rw [add_arc_bids, add_arc_bids]
            exact ensure_mem_free hL2 k'
          · rw [add_arc_bids, add_arc_bids]
            exact ensure_mem_held hL2 k'
  · -- lock edge: the classification never sets both keys
    have hu : unlockKey = none := by
      rcases hnb with hfalse | h
      · rw [hl] at hfalse
        exact Option.noConfusion hfalse
      · exact h
    subst hu
    rcases hdst : lookupBB bbMap target with _ | dst
    · simp only [processTarget, hdst]
      have hL2 : BuildInvL e (add_arc (add_transition st
          (edgeTrans f srcBB target (some k) none)) srcPlace
          (edgeTransId f srcBB target) 1) :=
        invL_add_arc (invL_add_transition (invL_of_inv h) _) _ _
      refine inv_assemble h (edgeTrans f srcBB target (some k) none) ?_ ?_ ?_ ?_ ?_ ?_
      · exact invL_add_arc (invL_add_arc (invL_ensure hL2 k) _ _) _ _
      · rw [add_arc_transitions, add_arc_transitions, ensure_transitions,
          add_arc_transitions]
        exact add_transition_transitions st _
      · intro x hx
        rw [add_arc_bids, add_arc_bids]
        apply ensure_bids_mono
        rwa [add_arc_bids, add_transition_bids]
      · intro a ha
        rw [add_arc_arcs, add_arc_arcs, ensure_arcs, add_arc_arcs,
          add_transition_arcs]
        exact List.mem_append_left _ (List.mem_append_left _
          (List.mem_append_left _ ha))
      · obtain ⟨a, ha, hta⟩ := add_arc_new_mem (add_transition st _) srcPlace
          (edgeTransId f srcBB target) 1
        exact ⟨a, add_arc_mem_arcs _ _ _ _ (add_arc_mem_arcs _ _ _ _
          (ensure_mem_arcs _ k ha)), hta⟩
      · intro _
        refine ⟨k, rfl, ?_, ?_⟩
        · rw [add_arc_bids, add_arc_bids]
          exact ensure_mem_free hL2 k
        · rw [add_arc_bids, add_arc_bids]
          exact ensure_mem_held hL2 k
    · simp only [processTarget, hdst]
      have hL2 : BuildInvL e (add_arc (add_arc (add_transition st
          (edgeTrans f srcBB target (some k) none)) srcPlace
          (edgeTransId f srcBB target) 1) (edgeTransId f srcBB target) dst 1) :=
        invL_add_arc (invL_add_arc (invL_add_transition (invL_of_inv h) _) _ _) _ _
      refine inv_assemble h (edgeTrans f srcBB target (some k) none) ?_ ?_ ?_ ?_ ?_ ?_
      · exact invL_add_arc (invL_add_arc (invL_ensure hL2 k) _ _) _ _
      · rw [add_arc_transitions, add_arc_transitions, ensure_transitions,
          add_arc_transitions, add_arc_transitions]
        exact add_transition_transitions st _
      · intro x hx
        rw [add_arc_bids, add_arc_bids]
        apply ensure_bids_mono
        rwa [add_arc_bids, add_arc_bids, add_transition_bids]
      · intro a ha
        rw [add_arc_arcs, add_arc_arcs, ensure_arcs, add_arc_arcs, add_arc_arcs,
          add_transition_arcs]
        exact List.mem_append_left _ (List.mem_append_left _
          (List.mem_append_left _ (List.mem_append_left _ ha)))
      · obtain ⟨a, ha, hta⟩ := add_arc_new_mem (add_transition st _) srcPlace
          (edgeTransId f srcBB target) 1
        exact ⟨a, add_arc_mem_arcs _ _ _ _ (add_arc_mem_arcs _ _ _ _
          (ensure_mem_arcs _ k (add_arc_mem_arcs _ _ _ _ ha))), hta⟩
      · intro _
        refine ⟨k, rfl, ?_, ?_⟩
        · rw [add_arc_bids, add_arc_bids]
          exact ensure_mem_free hL2 k
        · rw [add_arc_bids, add_arc_bids]
          exact ensure_mem_held hL2 k

lemma retTrans_kind (f : Str) (bbId : Nat) : (retTrans f bbId).kind = lchars ("cfg") :=
  rfl

lemma startTrans_kind (f : Str) : (startTrans f).kind = lchars ("cfg") := rfl

/-- Invariant preservation through a left fold. -/
lemma foldl_inv {α : Type} (P : BuildSt → Prop) (g : BuildSt → α → BuildSt)
    (hg : ∀ st x, P st → P (g st x)) :
    ∀ (l : List α) (st : BuildSt), P st → P (l.foldl g st) := by
  intro l
  induction l with
  | nil => intro st h; exact h
  | cons x xs ih =>
    intro st h
    exact ih (g st x) (hg st x h)

/-- The drop/call classification never marks an edge as both lock and
unlock. -/
lemma classify_not_both (f : Str) (guardT refT : List (Str × Str)) (bb : BasicBlock)
    (term : Terminator) :
    (classifyTerm f guardT refT bb term).2.1 = none
      ∨ (classifyTerm f guardT refT bb term).2.2.1 = none := by
  cases term with
  | goto t => exact Or.inl rfl
  | ret => exact Or.inl rfl
  | switch ts => exact Or.inl rfl
  | drop l r u =>
    rcases hg : dget? guardT l with _ | k <;> simp [classifyTerm, hg]
  | call lhs callee args r u =>
    by_cases hm : isMutexLockCallee callee = true
    · rcases he : extract_first_local args with _ | fa <;>
        simp [classifyTerm, hm, he]
    · simp [classifyTerm, hm]

/-- A `cfg`-kind transition insert followed by its two arcs (the start and
return steps of the builder). -/
lemma inv_trans_two_arcs {e : Str} {st : BuildSt} (h : BuildInv e st)
    (t : Transition) (hk : t.kind = lchars ("cfg")) (src dst : Str) :
    BuildInv e (add_arc (add_arc (add_transition st t) src t.id 1) t.id dst 1) := by
  refine inv_assemble h t ?_ ?_ ?_ ?_ ?_ ?_
  · exact invL_add_arc (invL_add_arc (invL_add_transition (invL_of_inv h) _) _ _) _ _
  · rw [add_arc_transitions, add_arc_transitions]
    exact add_transition_transitions st _
  · intro x hx
    rwa [add_arc_bids, add_arc_bids, add_transition_bids]
  · intro a ha
    rw [add_arc_arcs, add_arc_arcs, add_transition_arcs]
    exact List.mem_append_left _ (List.mem_append_left _ ha)
  · obtain ⟨a, ha, hta⟩ := add_arc_new_mem (add_transition st t) src t.id 1
    exact ⟨a, add_arc_mem_arcs _ _ _ _ ha, hta⟩
  · intro hkind
    rcases hkind with hkk | hkk <;> rw [hk] at hkk <;> exact absurd hkk (by decide)

lemma inv_processBlock {e : Str} (f : Str) (guardT refT : List (Str × Str))
    (bbMap : List (Nat × Str)) (exitId : Str) {st : BuildSt}
    (h : BuildInv e st) (bb : BasicBlock) :
    BuildInv e (processBlock f guardT refT bbMap exitId st bb) := by
  unfold processBlock
  split
  · exact h
  · split
    · exact h
    · rename_i srcPlace hsrc
      split
      · exact inv_addWarning h _
      · rename_i term hterm
        have h1 : BuildInv e
            (match (classifyTerm f guardT refT bb term).2.2.2 with
             | some w => addWarning st w
             | none => st) := by
          split
          · exact inv_addWarning h _
          · exact h
        have hnb := classify_not_both f guardT refT bb term
        have h2 : BuildInv e ((classifyTerm f guardT refT bb term).1.foldl
            (processTarget f bb.bb_id srcPlace
              (classifyTerm f guardT refT bb term).2.1
              (classifyTerm f guardT refT bb term).2.2.1 bbMap) _) :=
          foldl_inv (BuildInv e) _
            (fun st' x hst' => inv_processTarget f bb.bb_id srcPlace _ _ bbMap hst' hnb x)
            (classifyTerm f guardT refT bb term).1 _ h1
        split
        · exact inv_trans_two_arcs h2 (retTrans f bb.bb_id)
            (retTrans_kind f bb.bb_id) srcPlace exitId
        · exact h2

lemma inv_build_function_net {e : Str} {st : BuildSt} (h : BuildInv e st)
    (fn : MirFunction) : BuildInv e (build_function_net e st fn) := by
  unfold build_function_net
  refine foldl_inv (BuildInv e) _
    (fun st' bb h' => inv_processBlock _ _ _ _ _ h' bb) fn.basic_blocks _ ?_
  split
  · refine inv_trans_two_arcs ?_ (startTrans fn.name) (startTrans_kind fn.name) _ _
    refine foldl_inv (BuildInv e) _ ?_ fn.basic_blocks _ ?_
    · intro st' bb h'
      split
      · exact h'
      · exact inv_add_place h' (Or.inr (Or.inr (Or.inl ⟨fn.name, bb.bb_id, rfl, rfl⟩)))
    · exact inv_add_place (inv_add_place h (Or.inl ⟨fn.name, rfl, rfl⟩))
        (Or.inr (Or.inl ⟨fn.name, rfl, rfl⟩))
  · refine foldl_inv (BuildInv e) _ ?_ fn.basic_blocks _ ?_
    · intro st' bb h'
      split
      · exact h'
      · exact inv_add_place h' (Or.inr (Or.inr (Or.inl ⟨fn.name, bb.bb_id, rfl, rfl⟩)))
    · exact inv_add_place (inv_add_place h (Or.inl ⟨fn.name, rfl, rfl⟩))
        (Or.inr (Or.inl ⟨fn.name, rfl, rfl⟩))

lemma inv_build_petri_net (functions : List MirFunction) (e : Str)
    (max_fns : Option Nat) :
    BuildInv e ((fns_to_process functions max_fns).foldl
      (build_function_net e) emptyBuildSt) :=
  foldl_inv (BuildInv e) _ (fun st fn h => inv_build_function_net h fn) _ _
    (inv_empty e)

/-- `build_petri_net` is the net of the folded builder state. -/
lemma build_petri_net_eq (functions : List MirFunction) (e : Str)
    (max_fns : Option Nat) :
    build_petri_net functions e max_fns =
      ((fns_to_process functions max_fns).foldl (build_function_net e)
        emptyBuildSt).net := rfl

/-! Extracting the claim conclusions from `PlaceOk`. -/

lemma init_of_free {e : Str} {p : Place} (hok : PlaceOk e p) {k : Str}
    (hid : p.id = freePlaceId k) : p.init_tokens = 1 := by
  rcases hok with ⟨f, hf, hi⟩ | ⟨f, hf, hi⟩ | ⟨f, n, hf, hi⟩ | ⟨k', hf, hi⟩ | ⟨k', hf, hi⟩
  · exact absurd (hf.symm.trans hid) ((free_ne_entry k f).symm)
  · exact absurd (hf.symm.trans hid) ((free_ne_exit k f).symm)
  · exact absurd (hf.symm.trans hid) ((free_ne_bb k f n).symm)
  · exact hi
  · exact absurd (hf.symm.trans hid).symm (free_ne_held k k')

lemma init_of_held {e : Str} {p : Place} (hok : PlaceOk e p) {k : Str}
    (hid : p.id = heldPlaceId k) : p.init_tokens = 0 := by
  rcases hok with ⟨f, hf, hi⟩ | ⟨f, hf, hi⟩ | ⟨f, n, hf, hi⟩ | ⟨k', hf, hi⟩ | ⟨k', hf, hi⟩
  · exact absurd (hf.symm.trans hid) ((held_ne_entry k f).symm)
  · exact absurd (hf.symm.trans hid) ((held_ne_exit k f).symm)
  · exact absurd (hf.symm.trans hid) ((held_ne_bb k f n).symm)
  · exact absurd (hf.symm.trans hid) (free_ne_held k' k)
  · exact hi

lemma init_of_entry {e : Str} {p : Place} (hok : PlaceOk e p)
    (hid : p.id = entryPlaceId e) : p.init_tokens = 1 := by
  rcases hok with ⟨f, hf, hi⟩ | ⟨f, hf, hi⟩ | ⟨f, n, hf, hi⟩ | ⟨k', hf, hi⟩ | ⟨k', hf, hi⟩
  · have : f = e := entryPlaceId_inj (hf.symm.trans hid)
    subst this
    simpa using hi
  · exact absurd (hf.symm.trans hid).symm (entry_ne_exit e f)
  · exact absurd (hf.symm.trans hid).symm ((entry_ne_bb e f n))
  · exact absurd (hf.symm.trans hid) (free_ne_entry k' e)
  · exact absurd (hf.symm.trans hid) (held_ne_entry k' e)

lemma entry_of_like {e : Str} {p : Place} (hok : PlaceOk e p)
    (hlike : entryLike p.id = true) (hnz : p.init_tokens ≠ 0) :
    p.id = entryPlaceId e := by
  rcases hok with ⟨f, hf, hi⟩ | ⟨f, hf, hi⟩ | ⟨f, n, hf, hi⟩ | ⟨k', hf, hi⟩ | ⟨k', hf, hi⟩
  · by_cases hfe : f = e
    · rw [hf, hfe]
    · rw [hi, if_neg hfe] at hnz
      exact absurd rfl hnz
  · rw [hi] at hnz
    exact absurd rfl hnz
  · rw [hi] at hnz
    exact absurd rfl hnz
  · rw [hf, entryLike_free] at hlike
    cases hlike
  · rw [hi] at hnz
    exact absurd rfl hnz

/-! Counting helpers. -/

lemma countP_id_eq_one {l : List Place} {x : Str}
    (hnd : (l.map Place.id).Nodup) (hmem : x ∈ l.map Place.id) :
    l.countP (fun p => p.id == x) = 1 := by
  induction l with
  | nil => cases hmem
  | cons p l ih =>
    simp only [List.map_cons, List.nodup_cons] at hnd
    rw [List.countP_cons]
    rcases List.mem_cons.mp hmem with he | hm
    · have hpx : (p.id == x) = true := by
        subst he
        simp
      rw [if_pos hpx]
      have hzero : l.countP (fun q => q.id == x) = 0 := by
        rw [List.countP_eq_zero]
        intro q hq
        simp only [beq_iff_eq]
        intro hqx
        exact hnd.1 (by
          rw [← he, ← hqx]
          exact List.mem_map_of_mem Place.id hq)
      omega
    · have hpx : (p.id == x) = false := by
        simp only [beq_eq_false_iff_ne, ne_eq]
        intro hpe
        rw [hpe] at hnd
        exact hnd.1 hm
      rw [if_neg (by simp [hpx])]
      simpa using ih hnd.2 hm

lemma countP_le_one_keyed {l : List Place} {c : Str}
    (hnd : (l.map Place.id).Nodup) (pred : Place → Bool)
    (hpred : ∀ p ∈ l, pred p = true → p.id = c) : l.countP pred ≤ 1 := by
  induction l with
  | nil => simp
  | cons p l ih =>
    simp only [List.map_cons, List.nodup_cons] at hnd
    rw [List.countP_cons]
    by_cases hp : pred p = true
    · have hzero : l.countP pred = 0 := by
        rw [List.countP_eq_zero]
        intro q hq hqp
        have hqc : q.id = c := hpred q (List.mem_cons_of_mem p hq) hqp
        have hpc : p.id = c := hpred p (List.mem_cons_self p l) hp
        exact hnd.1 (by
          rw [hpc, ← hqc]
          exact List.mem_map_of_mem Place.id hq)
      rw [hzero, if_pos hp]
    · rw [if_neg hp]
      have := ih hnd.2 (fun q hq => hpred q (List.mem_cons_of_mem p hq))
      omega

lemma countP_pos_of_mem {l : List Place} {pred : Place → Bool} {p : Place}
    (hp : p ∈ l) (hpp : pred p = true) : 1 ≤ l.countP pred := by
  have : 0 < l.countP pred := List.countP_pos_iff.mpr ⟨p, hp, hpp⟩
  omega

/-! Membership in `bids` is monotone along the whole construction. -/

lemma processTarget_bids_mono (f : Str) (srcBB : Nat) (srcPlace : Str)
    (lockKey unlockKey : Option Str) (bbMap : List (Nat × Str)) (st : BuildSt)
    (target : Nat) {x : Str} (hx : x ∈ bids st) :
    x ∈ bids (processTarget f srcBB srcPlace lockKey unlockKey bbMap st target) := by
  rcases hl : lockKey with _ | k <;> rcases hu : unlockKey with _ | k' <;>
    rcases hdst : lookupBB bbMap target with _ | dst <;>
    simp only [processTarget, hdst] <;>
    · repeat
        first
          | rw [add_arc_bids]
          | rw [add_transition_bids]
          | apply ensure_bids_mono
      exact hx

lemma processBlock_bids_mono (f : Str) (guardT refT : List (Str × Str))
    (bbMap : List (Nat × Str)) (exitId : Str) (st : BuildSt) (bb : BasicBlock)
    {x : Str} (hx : x ∈ bids st) :
    x ∈ bids (processBlock f guardT refT bbMap exitId st bb) := by
  unfold processBlock
  split
  · exact hx
  · split
    · exact hx
    · rename_i srcPlace hsrc
      split
      · rw [addWarning_bids]
        exact hx
      · rename_i term hterm
        have h1 : x ∈ bids (match (classifyTerm f guardT refT bb term).2.2.2 with
            | some w => addWarning st w
            | none => st) := by
          split
          · rw [addWarning_bids]
            exact hx
          · exact hx
        have h2 := foldl_inv (fun st' => x ∈ bids st') _
          (fun st' tg h' => processTarget_bids_mono f bb.bb_id srcPlace
            (classifyTerm f guardT refT bb term).2.1
            (classifyTerm f guardT refT bb term).2.2.1 bbMap st' tg h')
          (classifyTerm f guardT refT bb term).1 _ h1
        split
        · rw [add_arc_bids, add_arc_bids, add_transition_bids]
          exact h2
        · exact h2

lemma build_function_net_bids_mono (e : Str) (st : BuildSt) (fn : MirFunction)
    {x : Str} (hx : x ∈ bids st) : x ∈ bids (build_function_net e st fn) := by
  unfold build_function_net
  apply foldl_inv (fun st' => x ∈ bids st') _
    (fun st' bb h' => processBlock_bids_mono _ _ _ _ _ st' bb h') fn.basic_blocks
  have hplaces : x ∈ bids (fn.basic_blocks.foldl
      (fun st' bb =>
        if bb.is_cleanup then st'
        else add_place st'
          { id := bbPlaceId fn.name bb.bb_id
            name := fn.name ++ lchars ("_bb") ++ natToStr bb.bb_id
            kind := lchars ("cfg"), init_tokens := 0, annotations := [] })
      (add_place (add_place st
        { id := entryPlaceId fn.name, name := fn.name ++ lchars ("_entry")
          kind := lchars ("cfg")
          init_tokens := if fn.name = e then 1 else 0, annotations := [] }
        )
        { id := exitPlaceId fn.name, name := fn.name ++ lchars ("_exit")
          kind := lchars ("cfg"), init_tokens := 0, annotations := [] })) := by
    apply foldl_inv (fun st' => x ∈ bids st') _ ?_ fn.basic_blocks
    · exact add_place_bids_mono _ _ (add_place_bids_mono _ _ hx)
    · intro st' bb h'
      split
      · exact h'
      · exact add_place_bids_mono _ _ h'
  split
  · rw [add_arc_bids, add_arc_bids, add_transition_bids]
    exact hplaces
  · exact hplaces

lemma build_function_net_entry_mem {e : Str} {st : BuildSt} (h : BuildInv e st)
    (fn : MirFunction) (hname : fn.name = e) :
    entryPlaceId e ∈ bids (build_function_net e st fn) := by
  subst hname
  unfold build_function_net
  apply foldl_inv (fun st' => entryPlaceId fn.name ∈ bids st') _
    (fun st' bb h' => processBlock_bids_mono _ _ _ _ _ st' bb h') fn.basic_blocks
  have hentry : entryPlaceId fn.name ∈ bids (add_place st
      { id := entryPlaceId fn.name, name := fn.name ++ lchars ("_entry")
        kind := lchars ("cfg")
        init_tokens := if fn.name = fn.name then 1 else 0, annotations := [] }) :=
    add_place_self_mem (invL_of_inv h) _
  have hplaces : entryPlaceId fn.name ∈ bids (fn.basic_blocks.foldl
      (fun st' bb =>
        if bb.is_cleanup then st'
        else add_place st'
          { id := bbPlaceId fn.name bb.bb_id
            name := fn.name ++ lchars ("_bb") ++ natToStr bb.bb_id
            kind := lchars ("cfg"), init_tokens := 0, annotations := [] })
      (add_place (add_place st
        { id := entryPlaceId fn.name, name := fn.name ++ lchars ("_entry")
          kind := lchars ("cfg")
          init_tokens := if fn.name = fn.name then 1 else 0, annotations := [] }
        )
        { id := exitPlaceId fn.name, name := fn.name ++ lchars ("_exit")
          kind := lchars ("cfg"), init_tokens := 0, annotations := [] })) := by
    apply foldl_inv (fun st' => entryPlaceId fn.name ∈ bids st') _ ?_ fn.basic_blocks
    · exact add_place_bids_mono _ _ hentry
    · intro st' bb h'
      split
      · exact h'
      · exact add_place_bids_mono _ _ h'
  split
  · rw [add_arc_bids, add_arc_bids, add_transition_bids]
    exact hplaces
  · exact hplaces

/-! ### The claims -/

/-- C1: in every net returned by `build_petri_net`, every mutex key `K`
appearing as the `op` of a transition of kind `lock` or `unlock` has the
place `p_mutex_K_free` present exactly once with initial tokens 1 and the
place `p_mutex_K_held` present exactly once with initial tokens 0, no
matter how many lock/unlock transitions share `K`. -/
theorem C1_mutex_place_pair (functions : List MirFunction) (entry_fn : Str)
    (max_fns : Option Nat) (t : Transition) (k : Str)
    (ht : t ∈ (build_petri_net functions entry_fn max_fns).transitions)
    (hkind : t.kind = lchars ("lock") ∨ t.kind = lchars ("unlock"))
    (hop : t.op = some k) :
    (build_petri_net functions entry_fn max_fns).places.countP
        (fun p => p.id == freePlaceId k) = 1
      ∧ (build_petri_net functions entry_fn max_fns).places.countP
        (fun p => p.id == heldPlaceId k) = 1
      ∧ (∀ p ∈ (build_petri_net functions entry_fn max_fns).places,
          p.id = freePlaceId k → p.init_tokens = 1)
      ∧ (∀ p ∈ (build_petri_net functions entry_fn max_fns).places,
          p.id = heldPlaceId k → p.init_tokens = 0) := by
  obtain ⟨hnd, hseen, hpl, htr, hdeg, hw⟩ :=
    inv_build_petri_net functions entry_fn max_fns
  obtain ⟨k', hk', hf, hh⟩ := htr t ht hkind
  have hkk : k' = k := Option.some.inj (hk'.symm.trans hop)
  subst hkk
  refine ⟨countP_id_eq_one hnd hf, countP_id_eq_one hnd hh, ?_, ?_⟩
  · intro p hp hid
    exact init_of_free (hpl p hp) hid
  · intro p hp hid
    exact init_of_held (hpl p hp) hid

/-- Witness: the pair of mutex places of the key `_1` in the net of the
minimal lock/drop function, via `C1_mutex_place_pair` applied to the lock
transition of that net, with the initial-token facts instantiated at the
two mutex places themselves. -/
theorem C1_mutex_place_pair_witness :
    (build_petri_net [fnLockDrop] (lchars ("main")) none).places.countP
        (fun p => p.id == freePlaceId (lchars ("_1"))) = 1
      ∧ (build_petri_net [fnLockDrop] (lchars ("main")) none).places.countP
        (fun p => p.id == heldPlaceId (lchars ("_1"))) = 1
      ∧ ({ id := freePlaceId (lchars ("_1"))
           name := lchars ("mutex_") ++ lchars ("_1") ++ lchars ("_free")
           kind := lchars ("mutex_free"), init_tokens := 1
           annotations := [] } : Place).init_tokens = 1
      ∧ ({ id := heldPlaceId (lchars ("_1"))
           name := lchars ("mutex_") ++ lchars ("_1") ++ lchars ("_held")
           kind := lchars ("mutex_held"), init_tokens := 0
           annotations := [] } : Place).init_tokens = 0 :=
  ⟨(C1_mutex_place_pair [fnLockDrop] (lchars ("main")) none
      (edgeTrans (lchars ("main")) 0 1 (some (lchars ("_1"))) none) (lchars ("_1"))
      (by decide) (Or.inl (by decide)) (by decide)).1,
    (C1_mutex_place_pair [fnLockDrop] (lchars ("main")) none
      (edgeTrans (lchars ("main")) 0 1 (some (lchars ("_1"))) none) (lchars ("_1"))
      (by decide) (Or.inl (by decide)) (by decide)).2.1,
    (C1_mutex_place_pair [fnLockDrop] (lchars ("main")) none
      (edgeTrans (lchars ("main")) 0 1 (some (lchars ("_1"))) none) (lchars ("_1"))
      (by decide) (Or.inl (by decide)) (by decide)).2.2.1 _ (by decide) rfl,
    (C1_mutex_place_pair [fnLockDrop] (lchars ("main")) none
      (edgeTrans (lchars ("main")) 0 1 (some (lchars ("_1"))) none) (lchars ("_1"))
      (by decide) (Or.inl (by decide)) (by decide)).2.2.2 _ (by decide) rfl⟩

/-- C2 counterexample: on the function whose blocks contain, in order,
`_2 = lock(move _1)`, `_5 = Result::unwrap(move _2)` and `drop(_5)` —
with the callee spelled `lock`, exactly as the claim states — the parser
records no guard binding at all (the callee `lock` does not match the
recognizer, which requires the substring `Mutex` alongside `lock`, or
`mutex::lock`), and the drop edge becomes a plain `cfg` transition, not
an `unlock`. -/
theorem C2_bare_lock_counterexample :
    (parse_mir mirTextBareLock).map
        (fun fn => dget? fn.guard_to_mutex_key (lchars ("_5"))) = [none]
      ∧ (parse_mir mirTextBareLock).map
        (fun fn => fn.guard_to_mutex_key.length) = [0]
      ∧ (transition_by_id (build_petri_net (parse_mir mirTextBareLock)
            (lchars ("main")) none) (lchars ("t_main_bb2_to_bb3"))).map
          Transition.kind = some (lchars ("cfg")) := by decide

/-- C2 amended: with a callee matching the mutex-lock shape
(`_2 = Mutex::lock(move _1)`), the unwrap propagation and the drop edge
behave as the claim describes: `guard_to_mutex_key["_5"] = "_1"` and the
drop edge becomes an `unlock` transition with op `"_1"`. -/
theorem C2_unwrap_propagation_amended :
    (parse_mir mirTextMutexLock).map
        (fun fn => dget? fn.guard_to_mutex_key (lchars ("_5"))) =
      [some (lchars ("_1"))]
      ∧ (parse_mir mirTextMutexLock).map
        (fun fn => dget? fn.guard_to_mutex_key (lchars ("_2"))) =
      [some (lchars ("_1"))]
      ∧ (transition_by_id (build_petri_net (parse_mir mirTextMutexLock)
            (lchars ("main")) none) (lchars ("t_main_bb2_to_bb3"))).map
          (fun t => (t.kind, t.op)) =
        some (lchars ("unlock"), some (lchars ("_1"))) := by decide

/-- C3 counterexample: on a block containing `_5 = &_1;` followed by
`_5 = &_2;`, the parser maps `_5` to `_2` — the *later* binding wins,
because the dict assignment overwrites — so the claimed value `_1` (first
binding wins) is wrong. -/
theorem C3_rebind_counterexample :
    (parse_mir mirTextRefRebind).map
        (fun fn => dget? fn.ref_to_base (lchars ("_5"))) = [some (lchars ("_2"))]
      ∧ ¬((parse_mir mirTextRefRebind).map
          (fun fn => dget? fn.ref_to_base (lchars ("_5"))) =
        [some (lchars ("_1"))]) := by decide

/-- C3 amended: table assignments overwrite during parsing: when the input
binds the same local twice, the table maps the key to the *last* bound
value — `_5 = &_1; _5 = &_2` yields `ref_to_base[_5] = _2`, and two lock
calls assigning `_2` (keys `_1` then `_3`) yield
`guard_to_mutex_key[_2] = _3`. -/
theorem C3_last_binding_wins_amended :
    (parse_mir mirTextRefRebind).map
        (fun fn => dget? fn.ref_to_base (lchars ("_5"))) = [some (lchars ("_2"))]
      ∧ (parse_mir mirTextGuardRebind).map
        (fun fn => dget? fn.guard_to_mutex_key (lchars ("_2"))) =
      [some (lchars ("_3"))] := by decide

/-- C6 counterexample: on a function header whose body has unbalanced
braces, `parse_mir` raises nothing — it returns a parsed function list
(the function `main`, with `bb0` and its `return` terminator intact). -/
theorem C6_unbalanced_counterexample :
    (parse_mir_exc mirTextUnbalanced).toOption.map
        (List.map MirFunction.name) = some [lchars ("main")]
      ∧ ∀ err, parse_mir_exc mirTextUnbalanced ≠ Except.error err := by
  refine ⟨by decide, ?_⟩
  intro err h
  exact Except.noConfusion h

/-- C6 amended: on unbalanced braces the function body is taken to extend
to the end of the input (minus its final character) and parsing proceeds:
the result is one function `main` whose `bb0` carries the `Return`
terminator found after the unclosed brace. -/
theorem C6_unbalanced_amended :
    (parse_mir mirTextUnbalanced).map
        (fun fn => (fn.name, fn.basic_blocks.map
          (fun b => (b.bb_id, b.is_cleanup, b.terminator)))) =
      [(lchars ("main"), [(0, false, some .ret)])] := by decide

/-- C8: with `_3 = &_1;` recorded before `_2 = Mutex::lock(move _3)`, the
guard `_2` is bound to the base local `_1`, not to `_3`; and with the
chain `_3 = &_1; _4 = &_3;` before `_2 = Mutex::lock(move _4)`, the bound
key is `_3` — a single `ref_to_base` lookup, not a transitive closure. -/
theorem C8_single_hop_resolution :
    (parse_mir mirTextAlias).map
        (fun fn => dget? fn.guard_to_mutex_key (lchars ("_2"))) =
      [some (lchars ("_1"))]
      ∧ (parse_mir mirTextAliasChain).map
        (fun fn => dget? fn.guard_to_mutex_key (lchars ("_2"))) =
      [some (lchars ("_3"))] := by decide

/-- C4 counterexample: a `switchInt` with target list `[bb1, bb1]` yields
one transition out of `p_main_bb0`, not two — the second occurrence is
deduplicated by transition id (`add_transition` is keyed by id), so a
duplicate occurrence does not get its own distinct transition. -/
theorem C4_duplicate_target_counterexample :
    ((build_petri_net [fnSwitchDup] (lchars ("main")) none).transitions.filter
        (fun t => (build_petri_net [fnSwitchDup] (lchars ("main")) none).arcs.any
          (fun a => a.source == lchars ("p_main_bb0") && a.target == t.id))).length
      = 1 := by decide

/-- C4 amended: duplicates in the target list are preserved by the
iteration — each occurrence yields its own *pair of CFG arcs* — but
transitions are deduplicated by id, so repeated occurrences of the same
target share one transition; a `switchInt` with n *distinct* targets
yields n transitions from the block's place. -/
theorem C4_switch_fanout_amended :
    ((build_petri_net [fnSwitchDup] (lchars ("main")) none).transitions.filter
        (fun t => (build_petri_net [fnSwitchDup] (lchars ("main")) none).arcs.any
          (fun a => a.source == lchars ("p_main_bb0") && a.target == t.id))).length
      = 1
      ∧ ((build_petri_net [fnSwitchDup] (lchars ("main")) none).arcs.filter
          (fun a => a.source == lchars ("p_main_bb0")
            && a.target == edgeTransId (lchars ("main")) 0 1)).length = 2
      ∧ ((build_petri_net [fnSwitchThree] (lchars ("main")) none).transitions.filter
          (fun t => (build_petri_net [fnSwitchThree] (lchars ("main")) none).arcs.any
            (fun a => a.source == lchars ("p_main_bb0") && a.target == t.id))).length
      = 3 := by decide

/-- C5 counterexample: the transition for a goto into a *cleanup* block is
created with its incoming arc but no outgoing arc at all (the cleanup
successor has no place and the edge carries no mutex op), so its
out-degree is 0. -/
theorem C5_out_degree_counterexample :
    edgeTrans (lchars ("main")) 0 1 none none
        ∈ (build_petri_net [fnGotoCleanup] (lchars ("main")) none).transitions
      ∧ ((build_petri_net [fnGotoCleanup] (lchars ("main")) none).arcs.filter
          (fun a => a.source == edgeTransId (lchars ("main")) 0 1)).length = 0 := by
  decide

/-- C5 amended: in every net returned by `build_petri_net`, every
transition has in-degree at least 1 (every transition insertion is
immediately followed by the arc from its source place); out-degree ≥ 1
fails for CFG transitions whose successor block is a cleanup block or
absent. -/
theorem C5_in_degree_amended (functions : List MirFunction) (entry_fn : Str)
    (max_fns : Option Nat) (t : Transition)
    (ht : t ∈ (build_petri_net functions entry_fn max_fns).transitions) :
    1 ≤ ((build_petri_net functions entry_fn max_fns).arcs.filter
      (fun a => a.target == t.id)).length := by
  obtain ⟨hnd, hseen, hpl, htr, hdeg, hw⟩ :=
    inv_build_petri_net functions entry_fn max_fns
  obtain ⟨a, ha, hta⟩ := hdeg t ht
  have hmem : a ∈ (build_petri_net functions entry_fn max_fns).arcs.filter
      (fun a => a.target == t.id) :=
    List.mem_filter.mpr ⟨ha, by rw [hta]; exact beq_self_eq_true t.id⟩
  have := List.length_pos_of_mem hmem
  omega

/-- Witness: `C5_in_degree_amended` at the start transition of the minimal
lock/drop net. -/
theorem C5_in_degree_amended_witness :
    1 ≤ ((build_petri_net [fnLockDrop] (lchars ("main")) none).arcs.filter
      (fun a => a.target == (startTrans (lchars ("main"))).id)).length :=
  C5_in_degree_amended [fnLockDrop] (lchars ("main")) none
    (startTrans (lchars ("main"))) (by decide)

/-- C7 counterexample: with one processed function `foo` and
`entry_fn = "main"`, *no* function-entry place has a non-zero initial
marking — not exactly one, as the claim asserts for the case where
`entry_fn` matches no processed function. -/
theorem C7_no_match_counterexample :
    (build_petri_net [fnFoo] (lchars ("main")) none).places.countP
      (fun p => entryLike p.id && p.init_tokens != 0) = 0 := by decide

/-- If some processed function is named `e`, the entry place of `e` is in
the net after folding the whole function list. -/
lemma foldl_entry_mem (e : Str) :
    ∀ (l : List MirFunction) (st : BuildSt), BuildInv e st →
      (∃ fn ∈ l, fn.name = e) →
      entryPlaceId e ∈ bids (l.foldl (build_function_net e) st) := by
  intro l
  induction l with
  | nil =>
    rintro st h ⟨fn, hfn, _⟩
    cases hfn
  | cons g gs ih =>
    rintro st h ⟨fn, hfn, hname⟩
    rcases List.mem_cons.mp hfn with rfl | hmem
    · simp only [List.foldl_cons]
      exact foldl_inv (fun st' => entryPlaceId e ∈ bids st') _
        (fun st' x hx => build_function_net_bids_mono e st' x hx) gs _
        (build_function_net_entry_mem h fn hname)
    · simp only [List.foldl_cons]
      exact ih _ (inv_build_function_net h g) ⟨fn, hmem, hname⟩

/-- C7 amended: among the function-entry places (ids of the form
`p_{fn}_entry`), only the entry function's place can carry a non-zero
initial marking, and at most one such place exists; exactly one exists
precisely when some processed function is named `entry_fn` — when
`entry_fn` matches no processed function, no entry place is marked. -/
theorem C7_entry_marking_amended (functions : List MirFunction) (entry_fn : Str)
    (max_fns : Option Nat) :
    (∀ p ∈ (build_petri_net functions entry_fn max_fns).places,
        entryLike p.id = true → p.init_tokens ≠ 0 → p.id = entryPlaceId entry_fn)
      ∧ (build_petri_net functions entry_fn max_fns).places.countP
          (fun p => entryLike p.id && p.init_tokens != 0) ≤ 1
      ∧ ((∃ fn ∈ fns_to_process functions max_fns, fn.name = entry_fn) →
          (build_petri_net functions entry_fn max_fns).places.countP
            (fun p => entryLike p.id && p.init_tokens != 0) = 1) := by
  rw [build_petri_net_eq]
  obtain ⟨hnd, hseen, hpl, htr, hdeg, hw⟩ :=
    inv_build_petri_net functions entry_fn max_fns
  have part2 : ((fns_to_process functions max_fns).foldl
        (build_function_net entry_fn) emptyBuildSt).net.places.countP
      (fun p => entryLike p.id && p.init_tokens != 0) ≤ 1 := by
    refine @countP_le_one_keyed _ (entryPlaceId entry_fn) hnd _ ?_
    intro p hp hpred
    simp only [Bool.and_eq_true, bne_iff_ne, ne_eq] at hpred
    exact entry_of_like (hpl p hp) hpred.1 hpred.2
  refine ⟨?_, part2, ?_⟩
  · intro p hp hlike hnz
    exact entry_of_like (hpl p hp) hlike hnz
  · rintro ⟨fn, hfn, hname⟩
    have hmem : entryPlaceId entry_fn ∈
        bids ((fns_to_process functions max_fns).foldl
          (build_function_net entry_fn) emptyBuildSt) :=
      foldl_entry_mem entry_fn _ _ (inv_empty entry_fn) ⟨fn, hfn, hname⟩
    obtain ⟨p, hp, hpid⟩ := List.mem_map.mp hmem
    have hinit : p.init_tokens = 1 := init_of_entry (hpl p hp) hpid
    have hpred : (entryLike p.id && p.init_tokens != 0) = true := by
      rw [hpid, hinit, entryLike_entryPlaceId]
      decide
    have hge := @countP_pos_of_mem _
      (fun p => entryLike p.id && p.init_tokens != 0) _ hp hpred
    omega

/-- Witness: `C7_entry_marking_amended` on the minimal lock/drop net,
with the entry-function hypothesis discharged by `fnLockDrop` itself. -/
theorem C7_entry_marking_amended_witness :
    (build_petri_net [fnLockDrop] (lchars ("main")) none).places.countP
      (fun p => entryLike p.id && p.init_tokens != 0) = 1 :=
  (C7_entry_marking_amended [fnLockDrop] (lchars ("main")) none).2.2
    ⟨fnLockDrop, List.mem_cons_self fnLockDrop [], rfl⟩

/-- C9: `build_petri_net` is a pure function of its arguments — two calls
with the same function list, entry function and `max_fns` produce nets
with identical place, transition and arc sequences, and in particular
equal multisets of component triples. -/
theorem C9_deterministic_idempotent (functions : List MirFunction) (entry_fn : Str)
    (max_fns : Option Nat) :
    build_petri_net functions entry_fn max_fns =
        build_petri_net functions entry_fn max_fns
      ∧ Multiset.ofList ((build_petri_net functions entry_fn max_fns).places.map
          (fun p => (p.id, p.kind, p.init_tokens))) =
        Multiset.ofList ((build_petri_net functions entry_fn max_fns).places.map
          (fun p => (p.id, p.kind, p.init_tokens)))
      ∧ Multiset.ofList ((build_petri_net functions entry_fn max_fns).transitions.map
          (fun t => (t.id, t.kind, t.op))) =
        Multiset.ofList ((build_petri_net functions entry_fn max_fns).transitions.map
          (fun t => (t.id, t.kind, t.op)))
      ∧ Multiset.ofList ((build_petri_net functions entry_fn max_fns).arcs.map
          (fun a => (a.id, a.source, a.target, a.weight))) =
        Multiset.ofList ((build_petri_net functions entry_fn max_fns).arcs.map
          (fun a => (a.id, a.source, a.target, a.weight))) :=
  ⟨rfl, rfl, rfl, rfl⟩

lemma placeElem_tag (p : Place) : xmlTag (placeElem p) = lchars ("place") := rfl

lemma transitionElem_tag (t : Transition) :
    xmlTag (transitionElem t) = lchars ("transition") := rfl

/-- C10: every arc of a net built by `build_petri_net` has weight exactly
1, and consequently the PNML writer emits no `inscription` element for
any arc of such a net (every `arc` element on the page has no children). -/
theorem C10_unit_weights_no_inscription (functions : List MirFunction)
    (entry_fn : Str) (max_fns : Option Nat) :
    (∀ a ∈ (build_petri_net functions entry_fn max_fns).arcs, a.weight = 1)
      ∧ (∀ c ∈ pnmlPageChildren (build_petri_net functions entry_fn max_fns),
          xmlTag c = lchars ("arc") → xmlChildren c = []) := by
  obtain ⟨hnd, hseen, hpl, htr, hdeg, hw⟩ :=
    inv_build_petri_net functions entry_fn max_fns
  refine ⟨hw, ?_⟩
  intro c hc htag
  unfold pnmlPageChildren at hc
  rcases List.mem_append.mp hc with hpt | harc
  · rcases List.mem_append.mp hpt with hp | ht
    · obtain ⟨p, _, rfl⟩ := List.mem_map.mp hp
      rw [placeElem_tag] at htag
      exact absurd htag (by decide)
    · obtain ⟨t, _, rfl⟩ := List.mem_map.mp ht
      rw [transitionElem_tag] at htag
      exact absurd htag (by decide)
  · obtain ⟨a, ha, rfl⟩ := List.mem_map.mp harc
    have hw1 : a.weight = 1 := hw a ha
    simp [arcElem, xmlChildren, hw1]

/-- Witness: `C10_unit_weights_no_inscription` on the minimal lock/drop
net, at its first arc and at that arc's page element. -/
theorem C10_unit_weights_no_inscription_witness :
    ({ id := lchars ("arc_") ++ natToStr 1, source := lchars ("p_main_entry")
       target := lchars ("t_main_start"), weight := 1 } : Arc).weight = 1
      ∧ xmlChildren (arcElem
          { id := lchars ("arc_") ++ natToStr 1, source := lchars ("p_main_entry")
            target := lchars ("t_main_start"), weight := 1 }) = [] :=
  ⟨(C10_unit_weights_no_inscription [fnLockDrop] (lchars ("main")) none).1
      _ (by decide),
    (C10_unit_weights_no_inscription [fnLockDrop] (lchars ("main")) none).2
      _ (List.mem_append_right _ (List.mem_map_of_mem arcElem (by decide))) rfl⟩
